import Mathlib

set_option linter.unnecessarySimpa false

/-!
Verification of the unwrapped-data-refinement enrichment pipeline.

This file gives a shallow embedding of the repository's core:

* `refiner/utils/spotify_client.py` — the catalog client
  (`_make_request` retry loop, `get_artists` batched lookup with the
  merge-into-map / re-expand step);
* `refiner/transformer/unwrapped_spotify_transformer.py` — the
  transformer (`UnwrappedSpotifyTransformer.transform`): artist identity
  enrichment, play-event folding, top-artist derivation;
* `refiner/transformer/base_transformer.py` — `DataTransformer.save_models`.

Environment effects are explicit parameters:

* Python's `list(set(xs))` materialization is a function parameter
  `setList`; CPython guarantees only that it enumerates the distinct
  elements of `xs` in some order (`SetListing` below).  Hash
  randomization makes the order an environment input.
* the network is an oracle `net : Nat → Nat → Outcome` giving, for the
  j-th batch request of a `get_artists` call, the outcome of each HTTP
  attempt; `authOk` is the result of `_get_access_token`.
* timestamps are modelled as `Int`; `parse_timestamp`
  (`refiner/utils/date.py`, not part of the sources) is an arbitrary
  function parameter `pts : String → Int`, so every theorem holds for
  every parser.
-/

/-! ## Input data model (`refiner/models/unrefined.py`) -/

structure UnwrappedUser where
  id_hash : String
  country : Option String
  product : Option String
  deriving DecidableEq

structure UnwrappedStats where
  total_minutes : Int
  track_count : Int
  unique_artists_count : Int
  activity_period_days : Int
  first_listen : Option String
  last_listen : Option String
  deriving DecidableEq

structure UnwrappedPlayedTrack where
  track_id : String
  artist_id : String
  duration_ms : Int
  listened_at : String
  deriving DecidableEq

structure UnwrappedTopArtist where
  id : String
  name : String
  popularity : Option Int
  play_count : Option String
  last_played : Option String
  deriving DecidableEq

structure UnwrappedData where
  user : UnwrappedUser
  stats : UnwrappedStats
  tracks : List UnwrappedPlayedTrack
  top_artists_medium_term : List UnwrappedTopArtist
  deriving DecidableEq

/-! ## Refined entity rows

Modelled from the spec: the SQLAlchemy row classes `User`,
`UserListeningStats`, `Artist`, `PlayedTrack`, `UserTopArtistAssoc` are
imported by the transformer from `refiner/models/refined.py` but are not
among the sources; their fields are fixed by the spec's data model (§3)
and by the keyword constructor calls in the transformer. -/

structure RUser where
  id_hash : String
  country : Option String
  product : Option String
  deriving DecidableEq

structure RListeningStats where
  user_id_hash : String
  total_minutes : Int
  track_count : Int
  unique_artists_count : Int
  activity_period_days : Int
  first_listen_at : Option Int
  last_listen_at : Option Int
  deriving DecidableEq

structure RArtist where
  id : String
  name : String
  popularity : Option Int
  genres : List String
  followers_total : Option Int
  primary_image_url : Option String
  deriving DecidableEq

structure RPlayedTrack where
  user_id_hash : String
  track_id : String
  artist_id : String
  duration_ms : Int
  listened_at : Int
  deriving DecidableEq

structure RTopArtistAssoc where
  user_id_hash : String
  artist_id : String
  play_count : Nat
  last_played_at : Option Int
  deriving DecidableEq

/-- One element of `models_to_save`. -/
inductive Entity where
  | user (u : RUser)
  | stats (s : RListeningStats)
  | artist (a : RArtist)
  | played (p : RPlayedTrack)
  | assoc (t : RTopArtistAssoc)
  deriving DecidableEq

/-! ## Catalog client (`refiner/utils/spotify_client.py`) -/

/-- A JSON artist record of the batch-lookup response.  Each field holds
`none` when the key is absent; `images` is the list of the images'
`url` fields. -/
structure ArtistRec where
  id : Option String
  name : Option String
  popularity : Option Int
  genres : List String
  followers_total : Option Int
  images : List (Option String)
  deriving DecidableEq

/-- The usable payload of one `_make_request` reply: the `artists` array
(entries can be JSON `null`).  Replies that are 204/empty, carry no
`artists` key, or are falsy all take the failure branch of
`get_artists` and are collapsed into `none` at the `make_request`
level. -/
abbrev SpotifyBody := List (Option ArtistRec)

/-- Outcome of one HTTP attempt inside `_make_request`:
a 429 with a parsed `Retry-After` value, a request error / error status
(both reach the `except requests.RequestException` handler), or a
delivered reply. -/
inductive Outcome where
  | rateLimited (retryAfter : Nat)
  | failure
  | success (body : Option SpotifyBody)
  deriving DecidableEq

def Outcome.isSuccess : Outcome → Bool
  | .success _ => true
  | _ => false

/-- Python truthiness of an optional string value (`None` and `""` are
falsy). -/
def truthyStr : Option String → Bool
  | none => false
  | some s => !s.isEmpty

/-- The retry loop of `_make_request` (lines 62–92): `attempt` is the
current loop index, `remaining = retries - attempt` the iterations
left.  Returns the delivered body (`none` = the batch failed or had no
usable payload) together with the list of retry sleeps performed
(`Retry-After` seconds after a non-final 429, `min(30, 2**attempt)`
after a non-final request error).  The politeness delay before each
call is not recorded. -/
def makeRequestLoop (o : Nat → Outcome) : Nat → Nat → Option SpotifyBody × List Nat
  | _, 0 => (none, [])
  | attempt, remaining + 1 =>
    match o attempt with
    | .success body => (body, [])
    | .rateLimited ra =>
      if remaining = 0 then (none, [])
      else
        let p := makeRequestLoop o (attempt + 1) remaining
        (p.1, ra :: p.2)
    | .failure =>
      if remaining = 0 then (none, [])
      else
        let p := makeRequestLoop o (attempt + 1) remaining
        (p.1, min 30 (2 ^ attempt) :: p.2)

/-- Embedding of `SpotifyAPIClient._make_request` for one batch: `authOk` is the
result of `_get_access_token` (False when credentials are missing or
the token exchange fails, in which case no attempt is made and the
call returns `None`). -/
def make_request (authOk : Bool) (retries : Nat) (o : Nat → Outcome) :
    Option SpotifyBody × List Nat :=
  if authOk then makeRequestLoop o 0 retries else (none, [])

/-- The batch slicing `unique_artist_ids[i:i+B]` performed by the
`range(0, len(unique_artist_ids), B)` loop of `get_artists`
(lines 105–106).  `fuel` bounds the recursion; it is instantiated with
the list length, which suffices for `B ≥ 1`.  The source raises for a
zero step, which no caller does (`SPOTIFY_MAX_IDS_PER_BATCH` defaults
to 50); the `B = 0` case is modelled as issuing no requests. -/
def batchSlicesGo (B : Nat) : Nat → List String → List (List String)
  | 0, _ => []
  | _, [] => []
  | fuel + 1, x :: xs => (x :: xs).take B :: batchSlicesGo B fuel ((x :: xs).drop B)

def batchSlices (B : Nat) (l : List String) : List (List String) :=
  if B = 0 then [] else batchSlicesGo B l.length l

/-- The batches requested by one `get_artists` call: the input IDs are
filtered for truthiness, materialized through a Python `set`
(`setList`), and sliced into batches of at most `B`. -/
def getArtistsRequests (setList : List String → List String) (B : Nat)
    (ids : List String) : List (List String) :=
  batchSlices B (setList (ids.filter (fun s => !s.isEmpty)))

/-- Storing one entry of a reply's `artists` array into
`all_artists_data_map` (lines 112–114): every truthy record that has an
`id` key is stored under that key, overwriting earlier entries.  The
Python dict is modelled by its lookup function. -/
def insertRec (m : String → Option ArtistRec) (r? : Option ArtistRec) :
    String → Option ArtistRec :=
  match r? with
  | none => m
  | some r =>
    match r.id with
    | none => m
    | some k => fun a => if a = k then some r else m a

/-- Folding one reply into `all_artists_data_map` (lines 111–116); a
failed or unusable reply contributes nothing. -/
def mergeBatch (m : String → Option ArtistRec) : Option SpotifyBody →
    String → Option ArtistRec
  | none => m
  | some body => body.foldl insertRec m

/-- The map `all_artists_data_map` after all batches are processed. -/
def mergedMap (bodies : List (Option SpotifyBody)) : String → Option ArtistRec :=
  bodies.foldl mergeBatch (fun _ => none)

/-- The reply bodies of the batch requests of one `get_artists` call,
in request order. -/
def batchBodies (setList : List String → List String) (net : Nat → Nat → Outcome)
    (authOk : Bool) (retries B : Nat) (ids : List String) :
    List (Option SpotifyBody) :=
  (List.range (getArtistsRequests setList B ids).length).map
    (fun j => (make_request authOk retries (net j)).1)

/-- Embedding of `SpotifyAPIClient.get_artists` (lines 95–119): early return on an
empty input or an empty deduplicated set, one request per batch, merge
of all replies into an id-keyed map, and re-expansion of the map over
the deduplicated ID list. -/
def get_artists (setList : List String → List String) (net : Nat → Nat → Outcome)
    (authOk : Bool) (retries B : Nat) (ids : List String) :
    List (Option ArtistRec) :=
  if ids.isEmpty then []
  else
    let uniq := setList (ids.filter (fun s => !s.isEmpty))
    if uniq.isEmpty then []
    else uniq.map (mergedMap (batchBodies setList net authOk retries B ids))

/-- The retry sleep after the non-final attempt `t`: `Retry-After` for a
429, `min(30, 2**attempt)` for a request error. -/
def sleepOne (o : Nat → Outcome) (t : Nat) : Nat :=
  match o t with
  | .rateLimited ra => ra
  | _ => min 30 (2 ^ t)

/-- The retry sleeps `_make_request` performs when every attempt fails:
one sleep after each non-final attempt. -/
def expectedSleeps (o : Nat → Outcome) (retries : Nat) : List Nat :=
  (List.range (retries - 1)).map (sleepOne o)

/-- The contract CPython gives for `list(set(xs))`: some enumeration of
the distinct elements of `xs`, i.e. a permutation of `xs.dedup`.  The
order is unspecified (hash randomization). -/
def SetListing (xs ys : List String) : Prop :=
  ys.Perm xs.dedup

instance (xs ys : List String) : Decidable (SetListing xs ys) :=
  List.decidablePerm ys xs.dedup

/-! ## Transformer (`refiner/transformer/unwrapped_spotify_transformer.py`)

`transform` is embedded for an already-validated input value
(`UnwrappedData.model_validate` succeeded; raw-JSON validation is an
external collaborator per spec §1). -/

/-- Step 1 of `transform`: the `User` row (lines 51–55). -/
def mkUser (d : UnwrappedData) : RUser :=
  ⟨d.user.id_hash, d.user.country, d.user.product⟩

/-- Step 2 of `transform`: the `UserListeningStats` row (lines 59–71);
`pts` is `parse_timestamp`. -/
def mkStats (pts : String → Int) (d : UnwrappedData) : RListeningStats :=
  ⟨d.user.id_hash, d.stats.total_minutes, d.stats.track_count,
    d.stats.unique_artists_count, d.stats.activity_period_days,
    d.stats.first_listen.map pts, d.stats.last_listen.map pts⟩

/-- The list `all_artist_ids_from_input_tracks` (lines 75–77): the artist IDs of
tracks with a truthy `artist_id` and `track_id != artist_id`,
materialized through a Python `set`. -/
def allArtistIds (setList : List String → List String)
    (tracks : List UnwrappedPlayedTrack) : List String :=
  setList ((tracks.filter
    (fun t => !t.artist_id.isEmpty && t.track_id != t.artist_id)).map
      (fun t => t.artist_id))

/-- The canonical ID a lookup reply resolves to, when the transformer
accepts it: the record must be truthy and carry truthy `id` and `name`
fields (line 86); otherwise the reply counts as unresolved. -/
def resolvedCanon : Option ArtistRec → Option String
  | none => none
  | some r =>
    match r.id, r.name with
    | some cid, some nm =>
      if !cid.isEmpty && !nm.isEmpty then some cid else none
    | _, _ => none

/-- The `Artist` row built from an accepted reply (lines 93–100). -/
def mkArtistRow (r : ArtistRec) (cid nm : String) : RArtist :=
  ⟨cid, nm, r.popularity, r.genres, r.followers_total,
    match r.images with
    | [] => none
    | u :: _ => u⟩

/-- State of the artist-processing loop (lines 83–106):
`amap` is `map_input_artist_id_to_db_id` (as a lookup function),
`cacheIds` the keys of `artists_in_db_cache` in insertion order,
`artists` the `Artist` rows appended to `models_to_save`. -/
structure EnrichState where
  amap : String → Option String
  cacheIds : List String
  artists : List RArtist

def enrichInit : EnrichState := ⟨fun _ => none, [], []⟩

/-- One iteration of the artist-processing loop, for the pair of
`input_id_sent_to_api` and its positional reply. -/
def enrichStep (st : EnrichState) (p : String × Option ArtistRec) : EnrichState :=
  match p.2 with
  | none => st
  | some r =>
    match r.id, r.name with
    | some cid, some nm =>
      if !cid.isEmpty && !nm.isEmpty then
        let amap2 := fun a => if a = p.1 then some cid else st.amap a
        if cid ∈ st.cacheIds then ⟨amap2, st.cacheIds, st.artists⟩
        else ⟨amap2, st.cacheIds ++ [cid], st.artists ++ [mkArtistRow r cid nm]⟩
      else st
    | _, _ => st

/-- The artist-processing loop: the source walks
`enumerate(all_artist_ids_from_input_tracks)` and the reply list in
lockstep (`spotify_artists_api_responses[i]`); the zip realizes that
walk (`get_artists` returns one entry per deduplicated ID, see
`get_artists_length`). -/
def enrichAll (pairs : List (String × Option ArtistRec)) : EnrichState :=
  pairs.foldl enrichStep enrichInit

/-- The canonical ID a play event is charged to
(`db_artist_id_for_fk`), or `none` when the event is skipped
(lines 113–126): skip when `track_id == artist_id`, when `artist_id`
is falsy, and when the lookup of `map_input_artist_id_to_db_id` yields
nothing truthy. -/
def eventDbId (amap : String → Option String) (t : UnwrappedPlayedTrack) :
    Option String :=
  if t.track_id == t.artist_id then none
  else if t.artist_id.isEmpty then none
  else
    match amap t.artist_id with
    | none => none
    | some dbId => if dbId.isEmpty then none else some dbId

/-- State of the played-track loop (lines 108–142): the `PlayedTrack`
rows added so far, the keys of `artist_play_stats` in first-touch
order, and its `play_count` / `last_played_at` columns as lookup
functions. -/
structure PlayState where
  played : List RPlayedTrack
  statKeys : List String
  counts : String → Nat
  lastAt : String → Option Int

def playInit : PlayState := ⟨[], [], fun _ => 0, fun _ => none⟩

/-- One iteration of the played-track loop: emit the `PlayedTrack` row,
increment the play count, and update `last_played_at` only on a
strictly greater timestamp (line 141). -/
def playStep (uid : String) (pts : String → Int) (amap : String → Option String)
    (st : PlayState) (t : UnwrappedPlayedTrack) : PlayState :=
  match eventDbId amap t with
  | none => st
  | some dbId =>
    let ts := pts t.listened_at
    ⟨st.played ++ [⟨uid, t.track_id, dbId, t.duration_ms, ts⟩],
      (if dbId ∈ st.statKeys then st.statKeys else st.statKeys ++ [dbId]),
      (fun a => if a = dbId then st.counts a + 1 else st.counts a),
      (fun a =>
        if a = dbId then
          match st.lastAt a with
          | none => some ts
          | some cur => if cur < ts then some ts else some cur
        else st.lastAt a)⟩

def playAll (uid : String) (pts : String → Int) (amap : String → Option String)
    (tracks : List UnwrappedPlayedTrack) : PlayState :=
  tracks.foldl (playStep uid pts amap) playInit

/-- Step 5 of `transform` (lines 145–160): one `UserTopArtistAssoc` per
accumulated artist, emitted only when at least one played track was
added; an artist missing from `artists_in_db_cache` is skipped (the
`CRITICAL LOGIC ERROR` guard). -/
def mkAssocs (uid : String) (st : PlayState) (cacheIds : List String) :
    List RTopArtistAssoc :=
  if st.played.length = 0 then []
  else
    st.statKeys.filterMap
      (fun c =>
        if c ∈ cacheIds then some ⟨uid, c, st.counts c, st.lastAt c⟩
        else none)

/-- The body of `transform` once the reply list for
`all_artist_ids_from_input_tracks` is fixed. -/
def transformCore (allIds : List String) (responses : List (Option ArtistRec))
    (pts : String → Int) (d : UnwrappedData) : List Entity :=
  let est := enrichAll (allIds.zip responses)
  let pst := playAll d.user.id_hash pts est.amap d.tracks
  [Entity.user (mkUser d), Entity.stats (mkStats pts d)]
    ++ est.artists.map Entity.artist
    ++ pst.played.map Entity.played
    ++ (mkAssocs d.user.id_hash pst est.cacheIds).map Entity.assoc

/-- The reply list `transform` works with: `get_artists` is called only
when `all_artist_ids_from_input_tracks` is non-empty (line 79);
`gfn` abstracts `self.spotify_client.get_artists`. -/
def responsesOf (setList : List String → List String)
    (gfn : List String → List (Option ArtistRec)) (d : UnwrappedData) :
    List (Option ArtistRec) :=
  if (allArtistIds setList d.tracks).isEmpty then []
  else gfn (allArtistIds setList d.tracks)

/-- The map `map_input_artist_id_to_db_id` produced by one `transform` call. -/
def resolvedMap (setList : List String → List String)
    (gfn : List String → List (Option ArtistRec)) (d : UnwrappedData) :
    String → Option String :=
  (enrichAll ((allArtistIds setList d.tracks).zip (responsesOf setList gfn d))).amap

/-- Embedding of `UnwrappedSpotifyTransformer.transform` on a validated input. -/
def transform (setList : List String → List String)
    (gfn : List String → List (Option ArtistRec)) (pts : String → Int)
    (d : UnwrappedData) : List Entity :=
  transformCore (allArtistIds setList d.tracks) (responsesOf setList gfn d) pts d

/-! ## Extraction helpers over the produced entity batch -/

def playedOf (l : List Entity) : List RPlayedTrack :=
  l.filterMap (fun e => match e with | .played p => some p | _ => none)

def artistsOf (l : List Entity) : List RArtist :=
  l.filterMap (fun e => match e with | .artist a => some a | _ => none)

def assocsOf (l : List Entity) : List RTopArtistAssoc :=
  l.filterMap (fun e => match e with | .assoc t => some t | _ => none)

/-- The play events a `transform` pass keeps and charges to canonical
artist `c`. -/
def keptFor (amap : String → Option String) (tracks : List UnwrappedPlayedTrack)
    (c : String) : List UnwrappedPlayedTrack :=
  tracks.filter (fun t => eventDbId amap t == some c)

/-- The parsed `listened_at` timestamps of those events. -/
def keptTs (amap : String → Option String) (pts : String → Int)
    (tracks : List UnwrappedPlayedTrack) (c : String) : List Int :=
  (keptFor amap tracks c).map (fun t => pts t.listened_at)

/-- The canonical IDs the catalog returned for the referenced raw IDs,
i.e. of the positionally paired replies the transformer accepts. -/
def canonicalIds (allIds : List String) (responses : List (Option ArtistRec)) :
    List String :=
  (allIds.zip responses).filterMap (fun p => resolvedCanon p.2)

/-! ## Persistence (`refiner/transformer/base_transformer.py`)

Modelled from the spec: the storage-sink transaction itself (SQLAlchemy
session) is an external collaborator; per spec §1/§4.3 its commit is
atomic — it either applies the whole batch or fails leaving the store
unchanged after rollback.  The control flow of `save_models`
(lines 92–123) is from the source: empty batches return 0 without
touching the session, a successful commit returns `len(models)`, a
failed commit rolls back and re-raises. -/

inductive SaveResult where
  | ok (n : Nat)
  | err
  deriving DecidableEq

def save_models (commitOk : Bool) (db : List Entity) (models : List Entity) :
    List Entity × SaveResult :=
  if models.isEmpty then (db, .ok 0)
  else if commitOk then (db ++ models, .ok models.length)
  else (db, .err)

/-! ## Client lemmas -/

/-- The sleeps of a failing run starting at attempt `a` with `rem`
attempts left. -/
def sleepTrace (o : Nat → Outcome) (a rem : Nat) : List Nat :=
  (List.range rem).map (fun t => sleepOne o (a + t))

lemma sleepTrace_succ (o : Nat → Outcome) (a k : Nat) :
    sleepTrace o a (k + 1) = sleepOne o a :: sleepTrace o (a + 1) k := by
  unfold sleepTrace
  rw [List.range_succ_eq_map, List.map_cons, List.map_map]
  refine congrArg₂ _ (by simp) (List.map_congr_left ?_)
  intro t ht
  simp only [Function.comp_apply]
  have h1 : a + (t + 1) = a + 1 + t := by omega
  rw [h1]

lemma makeRequestLoop_fail (o : Nat → Outcome) :
    ∀ n a, (∀ t, t < n + 1 → (o (a + t)).isSuccess = false) →
      makeRequestLoop o a (n + 1) = (none, sleepTrace o a n) := by
  intro n
  induction n with
  | zero =>
    intro a h
    have h0 := h 0 (by omega)
    unfold makeRequestLoop
    cases ho : o a with
    | success body => rw [Nat.add_zero] at h0; rw [ho] at h0; simp [Outcome.isSuccess] at h0
    | rateLimited ra => simp [sleepTrace]
    | failure => simp [sleepTrace]
  | succ m ih =>
    intro a h
    have h0 := h 0 (by omega)
    rw [Nat.add_zero] at h0
    have hrec : makeRequestLoop o (a + 1) (m + 1) = (none, sleepTrace o (a + 1) m) := by
      apply ih
      intro t ht
      have := h (t + 1) (by omega)
      rwa [show a + (t + 1) = a + 1 + t by omega] at this
    unfold makeRequestLoop
    cases ho : o a with
    | success body => rw [ho] at h0; simp [Outcome.isSuccess] at h0
    | rateLimited ra =>
      simp only [Nat.succ_ne_zero, if_false]
      rw [hrec, sleepTrace_succ, sleepOne, ho]
    | failure =>
      simp only [Nat.succ_ne_zero, if_false]
      rw [hrec, sleepTrace_succ, sleepOne, ho]

/-- Exhausting the retry budget with no successful attempt makes
`_make_request` return `None`, after sleeping the `Retry-After`
duration of each non-final 429 and `min(30, 2**attempt)` after each
non-final transient error. -/
lemma make_request_fail (o : Nat → Outcome) (retries : Nat)
    (h : ∀ t, t < retries → (o t).isSuccess = false) :
    make_request true retries o = (none, expectedSleeps o retries) := by
  unfold make_request
  cases retries with
  | zero => simp [makeRequestLoop, expectedSleeps]
  | succ n =>
    rw [if_pos rfl, makeRequestLoop_fail o n 0 (by simpa using h)]
    unfold expectedSleeps sleepTrace
    simp

lemma insertRec_of_none (m : String → Option ArtistRec) :
    insertRec m none = m := rfl

lemma insertRec_some_eq (m : String → Option ArtistRec) (r : ArtistRec) :
    insertRec m (some r) =
      match r.id with
      | none => m
      | some k => fun a => if a = k then some r else m a := rfl

lemma insertRec_of_idNone (m : String → Option ArtistRec) (r : ArtistRec)
    (hid : r.id = none) : insertRec m (some r) = m := by
  rw [insertRec_some_eq, hid]

lemma insertRec_of_idSome (m : String → Option ArtistRec) (r : ArtistRec)
    (k : String) (hid : r.id = some k) :
    insertRec m (some r) = fun a => if a = k then some r else m a := by
  rw [insertRec_some_eq, hid]

lemma insertRec_key (m : String → Option ArtistRec) (r? : Option ArtistRec)
    (a : String) (hm : ∀ r2, m a = some r2 → r2.id = some a) :
    ∀ r2, insertRec m r? a = some r2 → r2.id = some a := by
  intro r2
  cases r? with
  | none => rw [insertRec_of_none]; exact hm r2
  | some r =>
    cases hid : r.id with
    | none => rw [insertRec_of_idNone m r hid]; exact hm r2
    | some k =>
      rw [insertRec_of_idSome m r k hid]
      by_cases hak : a = k
      · subst hak
        simp only [if_pos rfl]
        intro he
        cases he
        exact hid
      · simp only [if_neg hak]
        exact hm r2

lemma foldl_insertRec_key (recs : SpotifyBody) :
    ∀ m a, (∀ r2, m a = some r2 → r2.id = some a) →
      ∀ r2, recs.foldl insertRec m a = some r2 → r2.id = some a := by
  induction recs with
  | nil => intro m a hm; exact hm
  | cons r? recs ih =>
    intro m a hm
    exact ih (insertRec m r?) a (insertRec_key m r? a hm)

lemma insertRec_none (m : String → Option ArtistRec) (r? : Option ArtistRec)
    (a : String) :
    insertRec m r? a = none ↔
      (m a = none ∧ ∀ r : ArtistRec, r? = some r → r.id ≠ some a) := by
  cases r? with
  | none => rw [insertRec_of_none]; simp
  | some r =>
    cases hid : r.id with
    | none => rw [insertRec_of_idNone m r hid]; simp [hid]
    | some k =>
      rw [insertRec_of_idSome m r k hid]
      by_cases hak : a = k
      · subst hak
        simp [hid]
      · simp only [if_neg hak]
        constructor
        · intro h
          refine ⟨h, ?_⟩
          intro r2 he
          cases he
          rw [hid]
          intro hc
          cases hc
          exact hak rfl
        · intro h
          exact h.1

lemma foldl_insertRec_none (recs : SpotifyBody) :
    ∀ m a, (recs.foldl insertRec m a = none ↔
      (m a = none ∧ ∀ r : ArtistRec, some r ∈ recs → r.id ≠ some a)) := by
  induction recs with
  | nil => intro m a; simp
  | cons r? recs ih =>
    intro m a
    rw [List.foldl_cons, ih]
    rw [insertRec_none]
    constructor
    · rintro ⟨⟨h1, h2⟩, h3⟩
      refine ⟨h1, ?_⟩
      intro r hr
      rcases List.mem_cons.mp hr with hr | hr
      · exact h2 r hr.symm
      · exact h3 r hr
    · rintro ⟨h1, h2⟩
      refine ⟨⟨h1, ?_⟩, ?_⟩
      · intro r hr
        exact h2 r (by rw [hr]; exact List.mem_cons_self _ _)
      · intro r hr
        exact h2 r (List.mem_cons_of_mem _ hr)

lemma mergeBatch_key (m : String → Option ArtistRec) (b : Option SpotifyBody)
    (a : String) (hm : ∀ r2, m a = some r2 → r2.id = some a) :
    ∀ r2, mergeBatch m b a = some r2 → r2.id = some a := by
  cases b with
  | none => exact hm
  | some body => exact foldl_insertRec_key body m a hm

lemma mergeBatch_none (m : String → Option ArtistRec) (b : Option SpotifyBody)
    (a : String) :
    mergeBatch m b a = none ↔
      (m a = none ∧ ∀ r : ArtistRec, some r ∈ b.getD [] → r.id ≠ some a) := by
  cases b with
  | none => simp [mergeBatch]
  | some body => exact foldl_insertRec_none body m a

lemma foldl_mergeBatch_key (bodies : List (Option SpotifyBody)) :
    ∀ m a, (∀ r2, m a = some r2 → r2.id = some a) →
      ∀ r2, bodies.foldl mergeBatch m a = some r2 → r2.id = some a := by
  induction bodies with
  | nil => intro m a hm; exact hm
  | cons b bodies ih =>
    intro m a hm
    exact ih (mergeBatch m b) a (mergeBatch_key m b a hm)

lemma foldl_mergeBatch_none (bodies : List (Option SpotifyBody)) :
    ∀ m a, (bodies.foldl mergeBatch m a = none ↔
      (m a = none ∧
        ∀ b ∈ bodies, ∀ r : ArtistRec, some r ∈ b.getD [] → r.id ≠ some a)) := by
  induction bodies with
  | nil => intro m a; simp
  | cons b bodies ih =>
    intro m a
    rw [List.foldl_cons, ih, mergeBatch_none]
    constructor
    · rintro ⟨⟨h1, h2⟩, h3⟩
      refine ⟨h1, ?_⟩
      intro b2 hb2
      rcases List.mem_cons.mp hb2 with hb2 | hb2
      · subst hb2; exact h2
      · exact h3 b2 hb2
    · rintro ⟨h1, h2⟩
      exact ⟨⟨h1, h2 b (List.mem_cons_self _ _)⟩,
        fun b2 hb2 => h2 b2 (List.mem_cons_of_mem _ hb2)⟩

/-- Every record the merged map yields for a key carries that key as its
canonical `id`. -/
lemma mergedMap_key (bodies : List (Option SpotifyBody)) (a : String)
    (r : ArtistRec) (h : mergedMap bodies a = some r) : r.id = some a :=
  foldl_mergeBatch_key bodies _ a (by intro r2 h2; cases h2) r h

/-- The merged map has no entry for a key exactly when no usable reply
record carries it. -/
lemma mergedMap_none (bodies : List (Option SpotifyBody)) (a : String) :
    mergedMap bodies a = none ↔
      ∀ b ∈ bodies, ∀ r : ArtistRec, some r ∈ b.getD [] → r.id ≠ some a := by
  rw [mergedMap, foldl_mergeBatch_none]
  simp

lemma batchSlicesGo_flatten (B : Nat) (hB : 0 < B) :
    ∀ fuel l, l.length ≤ fuel → (batchSlicesGo B fuel l).flatten = l := by
  intro fuel
  induction fuel with
  | zero =>
    intro l hl
    have : l = [] := List.eq_nil_of_length_eq_zero (by omega)
    subst this
    rfl
  | succ n ih =>
    intro l hl
    cases l with
    | nil => rfl
    | cons x xs =>
      rw [batchSlicesGo, List.flatten_cons, ih]
      · exact List.take_append_drop B (x :: xs)
      · simp only [List.length_drop, List.length_cons] at *
        omega

lemma batchSlicesGo_length (B : Nat) (hB : 0 < B) :
    ∀ fuel l, l.length ≤ fuel →
      (batchSlicesGo B fuel l).length = (l.length + (B - 1)) / B := by
  intro fuel
  induction fuel with
  | zero =>
    intro l hl
    have : l = [] := List.eq_nil_of_length_eq_zero (by omega)
    subst this
    simp only [batchSlicesGo, List.length_nil, Nat.zero_add]
    exact (Nat.div_eq_of_lt (by omega)).symm
  | succ n ih =>
    intro l hl
    cases l with
    | nil =>
      simp only [batchSlicesGo, List.length_nil, Nat.zero_add]
      exact (Nat.div_eq_of_lt (by omega)).symm
    | cons x xs =>
      rw [batchSlicesGo, List.length_cons, ih ((x :: xs).drop B)
        (by simp only [List.length_drop, List.length_cons] at *; omega)]
      simp only [List.length_drop, List.length_cons]
      rcases Nat.lt_or_ge (xs.length + 1) B with hlt | hge
      · have h1 : xs.length + 1 - B = 0 := by omega
        rw [h1]
        have h2 : (0 + (B - 1)) / B = 0 := Nat.div_eq_of_lt (by omega)
        rw [h2]
        have h3 : xs.length + 1 + (B - 1) = (xs.length + 1 - 1) + B := by omega
        rw [h3, Nat.add_div_right _ hB]
        have h4 : (xs.length + 1 - 1) / B = 0 := Nat.div_eq_of_lt (by omega)
        omega
      · have h1 : xs.length + 1 - B + (B - 1) + B = xs.length + 1 + (B - 1) := by
          omega
        have h2 : xs.length + 1 - B + (B - 1) + B = (xs.length + 1 - B + (B - 1)) + B :=
          rfl
        rw [← h1, h2, Nat.add_div_right _ hB]

lemma batchSlicesGo_sizes (B : Nat) (hB : 0 < B) :
    ∀ fuel l, ∀ b ∈ batchSlicesGo B fuel l, b.length ≤ B ∧ b ≠ [] := by
  intro fuel
  induction fuel with
  | zero =>
    intro l b hb
    simp [batchSlicesGo] at hb
  | succ n ih =>
    intro l b hb
    cases l with
    | nil => simp [batchSlicesGo] at hb
    | cons x xs =>
      rw [batchSlicesGo] at hb
      rcases List.mem_cons.mp hb with hb | hb
      · subst hb
        constructor
        · simp [List.length_take_le]
        · have : 0 < ((x :: xs).take B).length := by
            rw [List.length_take]
            simp only [List.length_cons]
            omega
          intro hc
          rw [hc] at this
          simp at this
      · exact ih _ b hb

lemma batchSlices_flatten (B : Nat) (hB : 0 < B) (l : List String) :
    (batchSlices B l).flatten = l := by
  rw [batchSlices, if_neg (by omega)]
  exact batchSlicesGo_flatten B hB l.length l le_rfl

lemma batchSlices_length (B : Nat) (hB : 0 < B) (l : List String) :
    (batchSlices B l).length = (l.length + (B - 1)) / B := by
  rw [batchSlices, if_neg (by omega)]
  exact batchSlicesGo_length B hB l.length l le_rfl

lemma batchSlices_sizes (B : Nat) (hB : 0 < B) (l : List String) :
    ∀ b ∈ batchSlices B l, b.length ≤ B ∧ b ≠ [] := by
  rw [batchSlices, if_neg (by omega)]
  exact batchSlicesGo_sizes B hB l.length l

/-- Lemma: `get_artists` always returns one entry per internally deduplicated
ID: the re-expansion walks `unique_artist_ids`. -/
lemma get_artists_length (setList : List String → List String)
    (net : Nat → Nat → Outcome) (authOk : Bool) (retries B : Nat)
    (ids : List String) (hne : ids ≠ []) :
    (get_artists setList net authOk retries B ids).length =
      (setList (ids.filter (fun s => !s.isEmpty))).length := by
  rw [get_artists, if_neg (by simpa using hne)]
  by_cases hu : (setList (ids.filter (fun s => !s.isEmpty))).isEmpty
  · rw [if_pos hu]
    rw [List.isEmpty_iff] at hu
    simp [hu]
  · rw [if_neg hu]
    exact List.length_map _ _

/-! ## Claim C1 — positional alignment of `get_artists` -/

/-- A catalog record for ID `y`. -/
def cexRecY : ArtistRec := ⟨some "y", some "Y", none, [], none, []⟩

/-- An adversarial but CPython-legitimate set materialization: it
enumerates the distinct elements in reversed order. -/
def cexSetList : List String → List String := fun l => l.reverse

/-- A network where the single batch request succeeds and returns a
record for `"y"` only. -/
def cexNet : Nat → Nat → Outcome := fun _ _ => .success (some [some cexRecY])

/-- C1, counterexample.  The claim states that the i-th result of
`get_artists` is the catalog record (or null) for the i-th ID of the
caller's deduplicated ID sequence.  `get_artists` re-derives its order
from an unordered Python `set`; under a legitimate set enumeration
(here: reversal) the output of `get_artists(["x", "y"])` is
`[record-for-y, null]`, not the claimed `[null, record-for-y]`. -/
theorem get_artists_not_aligned_to_caller_order :
    SetListing ((["x", "y"] : List String).filter (fun s => !s.isEmpty))
      (cexSetList ((["x", "y"] : List String).filter (fun s => !s.isEmpty)))
    ∧ get_artists cexSetList cexNet true 3 50 ["x", "y"] = [some cexRecY, none]
    ∧ get_artists cexSetList cexNet true 3 50 ["x", "y"] ≠ [none, some cexRecY] := by
  refine ⟨?_, ?_, ?_⟩
  · decide
  · decide
  · decide

/-- C1, amended.  `get_artists` output is aligned with its internally
recomputed deduplicated ID order.  Whenever that set materialization
preserves the caller's (already deduplicated, truthy) ID list, the
result list has one entry per caller ID and the i-th entry is the
catalog record carrying canonical ID equal to the i-th caller ID —
`null` exactly when no usable batch reply contains such a record —
regardless of the order or partiality of the batch replies. -/
theorem get_artists_aligned_of_stable_dedup
    (setList : List String → List String) (net : Nat → Nat → Outcome)
    (authOk : Bool) (retries B : Nat) (ids : List String)
    (hset : setList (ids.filter (fun s => !s.isEmpty)) = ids) :
    (get_artists setList net authOk retries B ids).length = ids.length ∧
    ∀ (i : Nat) (a : String), ids[i]? = some a →
      (∀ r : ArtistRec,
        (get_artists setList net authOk retries B ids)[i]? = some (some r) →
          r.id = some a) ∧
      ((get_artists setList net authOk retries B ids)[i]? = some none ↔
        ∀ b ∈ batchBodies setList net authOk retries B ids,
          ∀ r : ArtistRec, some r ∈ b.getD [] → r.id ≠ some a) := by
  by_cases hne : ids = []
  · subst hne
    refine ⟨by simp [get_artists], ?_⟩
    intro i a hia
    simp at hia
  · have hids : ids.isEmpty = false := by
      cases ids with
      | nil => exact absurd rfl hne
      | cons x xs => rfl
    have hout : get_artists setList net authOk retries B ids =
        ids.map (mergedMap (batchBodies setList net authOk retries B ids)) := by
      rw [get_artists]
      simp only [hset, hids, Bool.false_eq_true, if_false]
    rw [hout]
    refine ⟨List.length_map _ _, ?_⟩
    intro i a hia
    have hoi : (ids.map (mergedMap (batchBodies setList net authOk retries B ids)))[i]? =
        some (mergedMap (batchBodies setList net authOk retries B ids) a) := by
      rw [List.getElem?_map, hia]
      rfl
    rw [hoi]
    constructor
    · intro r hr
      exact mergedMap_key _ a r (Option.some_injective _ hr)
    · rw [Option.some_inj, mergedMap_none]

/-- Witness for the amended C1 at a concrete instance. -/
theorem get_artists_aligned_of_stable_dedup_witness :
    ((fun l => l) ((["x", "y"] : List String).filter (fun s => !s.isEmpty)) =
      (["x", "y"] : List String)) ∧
    ((get_artists (fun l => l) cexNet true 3 50 ["x", "y"]).length =
      (["x", "y"] : List String).length ∧
    ∀ (i : Nat) (a : String), (["x", "y"] : List String)[i]? = some a →
      (∀ r : ArtistRec,
        (get_artists (fun l => l) cexNet true 3 50 ["x", "y"])[i]? = some (some r) →
          r.id = some a) ∧
      ((get_artists (fun l => l) cexNet true 3 50 ["x", "y"])[i]? = some none ↔
        ∀ b ∈ batchBodies (fun l => l) cexNet true 3 50 ["x", "y"],
          ∀ r : ArtistRec, some r ∈ b.getD [] → r.id ≠ some a)) :=
  ⟨rfl, get_artists_aligned_of_stable_dedup (fun l => l) cexNet true 3 50
    ["x", "y"] rfl⟩

/-! ## Claim C6 — batch partitioning -/

/-- C6: for `n` distinct truthy artist IDs and a positive batch cap `B`,
`get_artists` issues exactly `ceil(n / B)` batch requests, each
carrying at most `B` IDs and none empty, and the batches partition the
ID set — no ID is requested twice. -/
theorem get_artists_batching (setList : List String → List String) (B : Nat)
    (ids : List String) (hB : 0 < B) (hnd : ids.Nodup)
    (htr : ∀ a ∈ ids, !a.isEmpty)
    (hset : SetListing (ids.filter (fun s => !s.isEmpty))
      (setList (ids.filter (fun s => !s.isEmpty)))) :
    (getArtistsRequests setList B ids).length = (ids.length + (B - 1)) / B
    ∧ (∀ b ∈ getArtistsRequests setList B ids, b.length ≤ B ∧ b ≠ [])
    ∧ (getArtistsRequests setList B ids).flatten.Nodup
    ∧ (getArtistsRequests setList B ids).flatten.Perm ids := by
  have hfilter : ids.filter (fun s => !s.isEmpty) = ids :=
    List.filter_eq_self.mpr htr
  have hperm : (setList (ids.filter (fun s => !s.isEmpty))).Perm ids := by
    have h0 : (setList (ids.filter (fun s => !s.isEmpty))).Perm
        ((ids.filter (fun s => !s.isEmpty)).dedup) := hset
    have h1 : (ids.filter (fun s => !s.isEmpty)).dedup = ids := by
      rw [hfilter, List.dedup_eq_self.mpr hnd]
    rwa [h1] at h0
  have hlen : (setList (ids.filter (fun s => !s.isEmpty))).length = ids.length :=
    hperm.length_eq
  have hflat : (getArtistsRequests setList B ids).flatten =
      setList (ids.filter (fun s => !s.isEmpty)) :=
    batchSlices_flatten B hB _
  refine ⟨?_, ?_, ?_, ?_⟩
  · rw [getArtistsRequests, batchSlices_length B hB, hlen]
  · exact batchSlices_sizes B hB _
  · rw [hflat]
    exact (hperm.nodup_iff).mpr hnd
  · rw [hflat]
    exact hperm

/-- Concrete IDs for the C6 scenario: 120 pairwise distinct IDs. -/
def batchIdsEx : List String := (List.range 120).map (fun i => "a" ++ toString i)

set_option maxRecDepth 8000 in
/-- Witness for C6 at the spec's scenario: 120 distinct IDs with batch
cap 50 give exactly 3 requests, each of at most 50 IDs, covering every
ID exactly once. -/
theorem get_artists_batching_witness :
    (0 < 50 ∧ batchIdsEx.Nodup ∧ (∀ a ∈ batchIdsEx, !a.isEmpty) ∧
      SetListing (batchIdsEx.filter (fun s => !s.isEmpty))
        ((fun l => l) (batchIdsEx.filter (fun s => !s.isEmpty)))) ∧
    (getArtistsRequests (fun l => l) 50 batchIdsEx).length = 3 ∧
    (∀ b ∈ getArtistsRequests (fun l => l) 50 batchIdsEx, b.length ≤ 50 ∧ b ≠ []) ∧
    (getArtistsRequests (fun l => l) 50 batchIdsEx).flatten.Nodup ∧
    (getArtistsRequests (fun l => l) 50 batchIdsEx).flatten.Perm batchIdsEx := by
  have h := get_artists_batching (fun l => l) 50 batchIdsEx (by decide)
    (by decide) (by decide) (by decide)
  refine ⟨⟨by decide, by decide, by decide, by decide⟩, ?_, h.2.1, h.2.2.1, h.2.2.2⟩
  have h1 := h.1
  have h2 : (batchIdsEx.length + (50 - 1)) / 50 = 3 := by decide
  rw [h1, h2]

/-! ## Claim C7 — retry exhaustion demotes a batch to null results -/

lemma list_disjoint_symm {l1 l2 : List String} (h : l1.Disjoint l2) :
    l2.Disjoint l1 := fun _ h2 h1 => h h1 h2

/-- Distinct batches of one `get_artists` call share no ID. -/
lemma requests_disjoint (setList : List String → List String) (B : Nat)
    (ids : List String) (hB : 0 < B)
    (hu : (setList (ids.filter (fun s => !s.isEmpty))).Nodup)
    (j k : Nat) (hj : j < (getArtistsRequests setList B ids).length)
    (hk : k < (getArtistsRequests setList B ids).length) (hjk : j ≠ k) :
    ((getArtistsRequests setList B ids).get ⟨j, hj⟩).Disjoint
      ((getArtistsRequests setList B ids).get ⟨k, hk⟩) := by
  have hflat : (getArtistsRequests setList B ids).flatten =
      setList (ids.filter (fun s => !s.isEmpty)) :=
    batchSlices_flatten B hB _
  have hnd : (getArtistsRequests setList B ids).flatten.Nodup := by
    rw [hflat]; exact hu
  have hpair : (getArtistsRequests setList B ids).Pairwise List.Disjoint :=
    (List.nodup_flatten.mp hnd).2
  rcases Nat.lt_or_ge j k with hlt | hge
  · exact List.pairwise_iff_get.mp hpair ⟨j, hj⟩ ⟨k, hk⟩ hlt
  · have hlt2 : k < j := by omega
    exact list_disjoint_symm
      (List.pairwise_iff_get.mp hpair ⟨k, hk⟩ ⟨j, hj⟩ hlt2)

/-- C7: a batch whose every attempt fails (429s and transient errors in
any mix) is abandoned: `_make_request` returns `None` after sleeping
the `Retry-After` duration after each non-final 429 and
`min(30, 2**attempt)` after each non-final transient error, and every
ID of that batch resolves to `null` in the `get_artists` output (the
well-formedness hypothesis `hwf` states that a reply of a batch only
carries records for IDs of that batch).  The embedding is total: every
exception path of the source is caught, so no exception reaches the
caller. -/
theorem get_artists_retry_exhaustion_null (setList : List String → List String)
    (net : Nat → Nat → Outcome) (retries B : Nat) (ids : List String)
    (j : Nat) (a : String) (hB : 0 < B) (hne : ids ≠ [])
    (hu : (setList (ids.filter (fun s => !s.isEmpty))).Nodup)
    (hj : j < (getArtistsRequests setList B ids).length)
    (ha : a ∈ (getArtistsRequests setList B ids).get ⟨j, hj⟩)
    (hfail : ∀ t, t < retries → ((net j) t).isSuccess = false)
    (hwf : ∀ k, (hk : k < (getArtistsRequests setList B ids).length) →
      ∀ body, (make_request true retries (net k)).1 = some body →
        ∀ r : ArtistRec, some r ∈ body → ∀ s, r.id = some s →
          s ∈ (getArtistsRequests setList B ids).get ⟨k, hk⟩) :
    make_request true retries (net j) = (none, expectedSleeps (net j) retries)
    ∧ ∀ i : Nat, (setList (ids.filter (fun s => !s.isEmpty)))[i]? = some a →
        (get_artists setList net true retries B ids)[i]? = some none := by
  have hmr : make_request true retries (net j) =
      (none, expectedSleeps (net j) retries) :=
    make_request_fail (net j) retries hfail
  refine ⟨hmr, ?_⟩
  intro i hi
  have hmem : a ∈ setList (ids.filter (fun s => !s.isEmpty)) := by
    have h1 := List.getElem?_eq_some_iff.mp hi
    rcases h1 with ⟨hlt, hval⟩
    exact hval ▸ List.getElem_mem hlt
  have huniqE : (setList (ids.filter (fun s => !s.isEmpty))).isEmpty = false := by
    cases hc : setList (ids.filter (fun s => !s.isEmpty)) with
    | nil => rw [hc] at hmem; cases hmem
    | cons x xs => rfl
  have hidsE : ids.isEmpty = false := by
    cases ids with
    | nil => exact absurd rfl hne
    | cons x xs => rfl
  have hout : get_artists setList net true retries B ids =
      (setList (ids.filter (fun s => !s.isEmpty))).map
        (mergedMap (batchBodies setList net true retries B ids)) := by
    rw [get_artists]
    simp only [hidsE, huniqE, Bool.false_eq_true, if_false]
  rw [hout, List.getElem?_map, hi]
  have hnone : mergedMap (batchBodies setList net true retries B ids) a = none := by
    rw [mergedMap_none]
    intro b hb r hr hida
    rcases List.mem_map.mp hb with ⟨k, hkmem, hbk⟩
    have hklt : k < (getArtistsRequests setList B ids).length :=
      List.mem_range.mp hkmem
    by_cases hkj : k = j
    · subst hkj
      rw [hmr] at hbk
      rw [← hbk] at hr
      simp at hr
    · cases hmk : (make_request true retries (net k)).1 with
      | none =>
        rw [hmk] at hbk
        rw [← hbk] at hr
        simp at hr
      | some body =>
        rw [hmk] at hbk
        rw [← hbk] at hr
        simp only [Option.getD_some] at hr
        have hamem : a ∈ (getArtistsRequests setList B ids).get ⟨k, hklt⟩ :=
          hwf k hklt body hmk r hr a hida
        exact requests_disjoint setList B ids hB hu j k hj hklt
          (fun h => hkj h.symm) ha hamem
  have hstep : Option.map (mergedMap (batchBodies setList net true retries B ids))
      (some a) =
      some (mergedMap (batchBodies setList net true retries B ids) a) := rfl
  rw [hstep, hnone]

/-- Witness for C7: a three-ID call with batch cap 2 whose second batch
(holding ID `"z"`) exhausts all three attempts with transient errors;
the backoff sleeps are `[min 30 1, min 30 2] = [1, 2]` and `"z"`
resolves to `null`. -/
theorem get_artists_retry_exhaustion_null_witness :
    (∀ t, t < 3 →
      (((fun _ _ => Outcome.failure) : Nat → Nat → Outcome) 1 t).isSuccess = false) ∧
    make_request true 3 (((fun _ _ => Outcome.failure) : Nat → Nat → Outcome) 1) =
      (none, expectedSleeps (((fun _ _ => Outcome.failure) : Nat → Nat → Outcome) 1) 3)
    ∧ ∀ i : Nat,
        ((fun l => l) ((["x", "y", "z"] : List String).filter
          (fun s => !s.isEmpty)))[i]? = some "z" →
        (get_artists (fun l => l) (fun _ _ => Outcome.failure) true 3 2
          ["x", "y", "z"])[i]? = some none := by
  have hwf : ∀ k, (hk : k < (getArtistsRequests (fun l => l) 2
      (["x", "y", "z"] : List String)).length) →
      ∀ body, (make_request true 3
        (((fun _ _ => Outcome.failure) : Nat → Nat → Outcome) k)).1 = some body →
        ∀ r : ArtistRec, some r ∈ body → ∀ s, r.id = some s →
          s ∈ (getArtistsRequests (fun l => l) 2
            (["x", "y", "z"] : List String)).get ⟨k, hk⟩ := by
    intro k hk body hbody
    have hn : (make_request true 3
        (((fun _ _ => Outcome.failure) : Nat → Nat → Outcome) k)).1 = none := rfl
    rw [hn] at hbody
    cases hbody
  have h := get_artists_retry_exhaustion_null (fun l => l)
    (fun _ _ => Outcome.failure) 3 2 ["x", "y", "z"] 1 "z" (by decide) (by decide)
    (by decide) (by decide) (by decide) (by decide) hwf
  exact ⟨by decide, h.1, h.2⟩

/-! ## Enrichment-fold lemmas -/

lemma resolvedCanon_some_eq (r : ArtistRec) :
    resolvedCanon (some r) =
      match r.id, r.name with
      | some cid, some nm =>
        if !cid.isEmpty && !nm.isEmpty then some cid else none
      | _, _ => none := rfl

lemma enrichStep_none_eq (st : EnrichState) (a : String) :
    enrichStep st (a, none) = st := rfl

lemma enrichStep_some_eq (st : EnrichState) (a : String) (r : ArtistRec) :
    enrichStep st (a, some r) =
      match r.id, r.name with
      | some cid, some nm =>
        if !cid.isEmpty && !nm.isEmpty then
          if cid ∈ st.cacheIds then
            ⟨fun x => if x = a then some cid else st.amap x, st.cacheIds, st.artists⟩
          else
            ⟨fun x => if x = a then some cid else st.amap x, st.cacheIds ++ [cid],
              st.artists ++ [mkArtistRow r cid nm]⟩
        else st
      | _, _ => st := rfl

/-- Characterization of one artist-processing iteration: either the
reply is rejected and the state is untouched, or it resolves to a
canonical ID, the raw→canonical map gains the pair, and the artist
cache/rows grow exactly when the canonical ID is new. -/
lemma enrichStep_char (st : EnrichState) (p : String × Option ArtistRec) :
    (resolvedCanon p.2 = none ∧ enrichStep st p = st) ∨
    (∃ r cid nm, p.2 = some r ∧ r.id = some cid ∧ r.name = some nm ∧
      resolvedCanon p.2 = some cid ∧
      enrichStep st p =
        ⟨fun x => if x = p.1 then some cid else st.amap x,
          (if cid ∈ st.cacheIds then st.cacheIds else st.cacheIds ++ [cid]),
          (if cid ∈ st.cacheIds then st.artists
           else st.artists ++ [mkArtistRow r cid nm])⟩) := by
  rcases p with ⟨a, r?⟩
  cases r? with
  | none => exact Or.inl ⟨rfl, rfl⟩
  | some r =>
    rw [resolvedCanon_some_eq, enrichStep_some_eq]
    cases hid : r.id with
    | none => exact Or.inl ⟨rfl, rfl⟩
    | some cid =>
      cases hnm : r.name with
      | none => exact Or.inl ⟨rfl, rfl⟩
      | some nm =>
        by_cases hc : (!cid.isEmpty && !nm.isEmpty) = true
        · refine Or.inr ⟨r, cid, nm, rfl, hid, hnm, ?_, ?_⟩
          · simp only [hc, if_true]
          · simp only [hc, if_true]
            by_cases hmem : cid ∈ st.cacheIds
            · simp only [hmem, if_true]
            · simp only [hmem, if_false]
        · rw [Bool.not_eq_true] at hc
          exact Or.inl ⟨by simp only [hc, Bool.false_eq_true, if_false], by
            simp only [hc, Bool.false_eq_true, if_false]⟩

/-- Invariant: the artist-cache keys are exactly the IDs of the `Artist`
rows appended so far, in order. -/
lemma enrich_cache_eq_artistIds :
    ∀ (pairs : List (String × Option ArtistRec)) (st : EnrichState), st.cacheIds = st.artists.map (fun a => a.id) →
      (pairs.foldl enrichStep st).cacheIds =
        (pairs.foldl enrichStep st).artists.map (fun a => a.id) := by
  intro pairs
  induction pairs with
  | nil => intro st h; exact h
  | cons p pairs ih =>
    intro st h
    rw [List.foldl_cons]
    apply ih
    rcases enrichStep_char st p with ⟨_, he⟩ | ⟨r, cid, nm, _, _, _, _, he⟩
    · rw [he]; exact h
    · rw [he]
      by_cases hmem : cid ∈ st.cacheIds
      · simp only [hmem, if_true]
        exact h
      · simp only [hmem, if_false]
        rw [List.map_append, ← h]
        rfl

/-- Invariant: every canonical ID in the raw→canonical map is an artist
cache key. -/
lemma enrich_amap_sub_cache :
    ∀ (pairs : List (String × Option ArtistRec)) (st : EnrichState), (∀ a c, st.amap a = some c → c ∈ st.cacheIds) →
      ∀ a c, (pairs.foldl enrichStep st).amap a = some c →
        c ∈ (pairs.foldl enrichStep st).cacheIds := by
  intro pairs
  induction pairs with
  | nil => intro st h; exact h
  | cons p pairs ih =>
    intro st h
    rw [List.foldl_cons]
    apply ih
    rcases enrichStep_char st p with ⟨_, he⟩ | ⟨r, cid, nm, _, _, _, _, he⟩
    · rw [he]; exact h
    · rw [he]
      intro a c
      simp only
      by_cases ha : a = p.1
      · simp only [ha, if_pos rfl]
        intro hc
        cases hc
        by_cases hmem : cid ∈ st.cacheIds
        · simp only [hmem, if_true]
        · simp only [hmem, if_false]
          exact List.mem_append_right _ (List.mem_singleton.mpr rfl)
      · simp only [if_neg ha]
        intro hc
        have := h a c hc
        by_cases hmem : cid ∈ st.cacheIds
        · simp only [hmem, if_true]
          exact this
        · simp only [hmem, if_false]
          exact List.mem_append_left _ this

/-- Invariant: the artist-cache keys stay duplicate-free. -/
lemma enrich_cache_nodup :
    ∀ (pairs : List (String × Option ArtistRec)) (st : EnrichState), st.cacheIds.Nodup →
      (pairs.foldl enrichStep st).cacheIds.Nodup := by
  intro pairs
  induction pairs with
  | nil => intro st h; exact h
  | cons p pairs ih =>
    intro st h
    rw [List.foldl_cons]
    apply ih
    rcases enrichStep_char st p with ⟨_, he⟩ | ⟨r, cid, nm, _, _, _, _, he⟩
    · rw [he]; exact h
    · rw [he]
      by_cases hmem : cid ∈ st.cacheIds
      · simp only [hmem, if_true]
        exact h
      · simp only [hmem, if_false]
        rw [List.nodup_append]
        exact ⟨h, List.nodup_singleton _, by
          intro x hx hx2
          rw [List.mem_singleton] at hx2
          subst hx2
          exact hmem hx⟩

/-- The artist-cache keys collected by the loop are exactly the starting
keys plus the canonical IDs of the accepted replies. -/
lemma enrich_cache_mem :
    ∀ (pairs : List (String × Option ArtistRec)) (st : EnrichState) (x : String),
      (x ∈ (pairs.foldl enrichStep st).cacheIds ↔
        x ∈ st.cacheIds ∨ x ∈ pairs.filterMap (fun p => resolvedCanon p.2)) := by
  intro pairs
  induction pairs with
  | nil => intro st x; simp
  | cons p pairs ih =>
    intro st x
    rw [List.foldl_cons, ih]
    rcases enrichStep_char st p with ⟨hres, he⟩ | ⟨r, cid, nm, _, _, _, hres, he⟩
    · rw [he, List.filterMap_cons, hres]
    · rw [he, List.filterMap_cons, hres]
      simp only [List.mem_cons]
      by_cases hmem : cid ∈ st.cacheIds
      · simp only [hmem, if_true]
        constructor
        · tauto
        · rintro (h | h | h)
          · exact Or.inl h
          · subst h; exact Or.inl hmem
          · exact Or.inr h
      · simp only [hmem, if_false, List.mem_append, List.mem_singleton]
        tauto

/-! ## Play-event fold lemmas -/

lemma playStep_skip (uid : String) (pts : String → Int)
    (amap : String → Option String) (st : PlayState) (t : UnwrappedPlayedTrack)
    (h : eventDbId amap t = none) : playStep uid pts amap st t = st := by
  unfold playStep
  rw [h]

lemma playStep_hit (uid : String) (pts : String → Int)
    (amap : String → Option String) (st : PlayState) (t : UnwrappedPlayedTrack)
    (dbId : String) (h : eventDbId amap t = some dbId) :
    playStep uid pts amap st t =
      ⟨st.played ++ [⟨uid, t.track_id, dbId, t.duration_ms, pts t.listened_at⟩],
        (if dbId ∈ st.statKeys then st.statKeys else st.statKeys ++ [dbId]),
        (fun a => if a = dbId then st.counts a + 1 else st.counts a),
        (fun a =>
          if a = dbId then
            match st.lastAt a with
            | none => some (pts t.listened_at)
            | some cur =>
              if cur < pts t.listened_at then some (pts t.listened_at) else some cur
          else st.lastAt a)⟩ := by
  unfold playStep
  rw [h]

/-- The running `last_played_at` update of the played-track loop,
starting from `init` and folding the listed timestamps with the
strictly-greater rule of line 141. -/
def runMax (init : Option Int) (l : List Int) : Option Int :=
  l.foldl
    (fun acc ts =>
      match acc with
      | none => some ts
      | some cur => if cur < ts then some ts else some cur) init

lemma runMax_some_eq (l : List Int) :
    ∀ m : Int, runMax (some m) l = some (l.foldl max m) := by
  induction l with
  | nil => intro m; rfl
  | cons t ts ih =>
    intro m
    have hstep : runMax (some m) (t :: ts) =
        runMax (if m < t then some t else some m) ts := by
      unfold runMax
      rw [List.foldl_cons]
    rw [hstep]
    have h2 : (if m < t then some t else some m) = some (max m t) := by
      by_cases h : m < t
      · rw [if_pos h, max_eq_right h.le]
      · rw [if_neg h, max_eq_left (not_lt.mp h)]
    rw [h2, ih (max m t), List.foldl_cons]

/-- Folding timestamps with the strictly-greater update from an empty
start computes exactly the maximum of the list. -/
lemma runMax_none_eq_max (l : List Int) : runMax none l = l.max? := by
  cases l with
  | nil => rfl
  | cons t ts =>
    have hstep : runMax none (t :: ts) = runMax (some t) ts := by
      unfold runMax
      rw [List.foldl_cons]
    rw [hstep, runMax_some_eq, List.max?_cons']

lemma runMax_cons (init : Option Int) (x : Int) (rest : List Int) :
    runMax init (x :: rest) =
      runMax (match init with
        | none => some x
        | some cur => if cur < x then some x else some cur) rest := by
  unfold runMax
  rw [List.foldl_cons]

/-- After the played-track loop, `play_count` of each canonical artist
has grown by the number of kept events charged to it. -/
lemma play_counts_eq (uid : String) (pts : String → Int)
    (amap : String → Option String) :
    ∀ (tracks : List UnwrappedPlayedTrack) (st : PlayState) (c : String),
      (tracks.foldl (playStep uid pts amap) st).counts c =
        st.counts c + (tracks.filter (fun t => eventDbId amap t == some c)).length := by
  intro tracks
  induction tracks with
  | nil => intro st c; simp
  | cons t ts ih =>
    intro st c
    rw [List.foldl_cons, ih, List.filter_cons]
    cases h : eventDbId amap t with
    | none =>
      rw [playStep_skip uid pts amap st t h]
      simp
    | some dbId =>
      rw [playStep_hit uid pts amap st t dbId h]
      by_cases hc : c = dbId
      · subst hc
        simp only [beq_self_eq_true, if_true, List.length_cons]
        omega
      · have hb : ¬(dbId = c) := fun hx => hc hx.symm
        simp [hc, hb]

/-- After the played-track loop, `last_played_at` of each canonical
artist is the strictly-greater fold of the kept timestamps charged to
it. -/
lemma play_lastAt_eq (uid : String) (pts : String → Int)
    (amap : String → Option String) :
    ∀ (tracks : List UnwrappedPlayedTrack) (st : PlayState) (c : String),
      (tracks.foldl (playStep uid pts amap) st).lastAt c =
        runMax (st.lastAt c)
          ((tracks.filter (fun t => eventDbId amap t == some c)).map
            (fun t => pts t.listened_at)) := by
  intro tracks
  induction tracks with
  | nil => intro st c; simp [runMax]
  | cons t ts ih =>
    intro st c
    rw [List.foldl_cons, ih, List.filter_cons]
    cases h : eventDbId amap t with
    | none =>
      rw [playStep_skip uid pts amap st t h]
      simp
    | some dbId =>
      rw [playStep_hit uid pts amap st t dbId h]
      by_cases hc : c = dbId
      · subst hc
        simp only [beq_self_eq_true, if_true, List.map_cons]
        rw [runMax_cons]
      · have hb : ¬(dbId = c) := fun hx => hc hx.symm
        simp [hc, hb]

/-- The keys of `artist_play_stats` stay duplicate-free (first-touch
insertion). -/
lemma play_statKeys_nodup (uid : String) (pts : String → Int)
    (amap : String → Option String) :
    ∀ (tracks : List UnwrappedPlayedTrack) (st : PlayState), st.statKeys.Nodup →
      (tracks.foldl (playStep uid pts amap) st).statKeys.Nodup := by
  intro tracks
  induction tracks with
  | nil => intro st h; exact h
  | cons t ts ih =>
    intro st h
    rw [List.foldl_cons]
    apply ih
    cases hd : eventDbId amap t with
    | none =>
      rw [playStep_skip uid pts amap st t hd]
      exact h
    | some dbId =>
      rw [playStep_hit uid pts amap st t dbId hd]
      by_cases hmem : dbId ∈ st.statKeys
      · simpa [hmem] using h
      · simp only [hmem, if_false]
        rw [List.nodup_append]
        exact ⟨h, List.nodup_singleton _, by
          intro x hx hx2
          rw [List.mem_singleton] at hx2
          subst hx2
          exact hmem hx⟩

/-- A canonical artist is a key of `artist_play_stats` exactly when some
kept event is charged to it. -/
lemma play_statKeys_mem (uid : String) (pts : String → Int)
    (amap : String → Option String) :
    ∀ (tracks : List UnwrappedPlayedTrack) (st : PlayState) (c : String),
      (c ∈ (tracks.foldl (playStep uid pts amap) st).statKeys ↔
        c ∈ st.statKeys ∨ ∃ t ∈ tracks, eventDbId amap t = some c) := by
  intro tracks
  induction tracks with
  | nil => intro st c; simp
  | cons t ts ih =>
    intro st c
    rw [List.foldl_cons, ih]
    cases hd : eventDbId amap t with
    | none =>
      rw [playStep_skip uid pts amap st t hd]
      constructor
      · rintro (h | h)
        · exact Or.inl h
        · exact Or.inr (by
            rcases h with ⟨t2, ht2, he⟩
            exact ⟨t2, List.mem_cons_of_mem _ ht2, he⟩)
      · rintro (h | ⟨t2, ht2, he⟩)
        · exact Or.inl h
        · rcases List.mem_cons.mp ht2 with h2 | h2
          · subst h2
            rw [hd] at he
            cases he
          · exact Or.inr ⟨t2, h2, he⟩
    | some dbId =>
      rw [playStep_hit uid pts amap st t dbId hd]
      by_cases hmem : dbId ∈ st.statKeys
      · simp only [hmem, if_true]
        constructor
        · rintro (h | h)
          · exact Or.inl h
          · rcases h with ⟨t2, ht2, he⟩
            exact Or.inr ⟨t2, List.mem_cons_of_mem _ ht2, he⟩
        · rintro (h | ⟨t2, ht2, he⟩)
          · exact Or.inl h
          · rcases List.mem_cons.mp ht2 with h2 | h2
            · subst h2
              rw [hd] at he
              cases he
              exact Or.inl hmem
            · exact Or.inr ⟨t2, h2, he⟩
      · simp only [hmem, if_false, List.mem_append, List.mem_singleton]
        constructor
        · rintro ((h | h) | h)
          · exact Or.inl h
          · subst h
            exact Or.inr ⟨t, List.mem_cons_self _ _, hd⟩
          · rcases h with ⟨t2, ht2, he⟩
            exact Or.inr ⟨t2, List.mem_cons_of_mem _ ht2, he⟩
        · rintro (h | ⟨t2, ht2, he⟩)
          · exact Or.inl (Or.inl h)
          · rcases List.mem_cons.mp ht2 with h2 | h2
            · subst h2
              rw [hd] at he
              cases he
              exact Or.inl (Or.inr rfl)
            · exact Or.inr ⟨t2, h2, he⟩

/-- The `PlayedTrack` rows appended by the loop, in input order: one row
per kept event, charged to its canonical artist. -/
lemma play_played_eq (uid : String) (pts : String → Int)
    (amap : String → Option String) :
    ∀ (tracks : List UnwrappedPlayedTrack) (st : PlayState),
      (tracks.foldl (playStep uid pts amap) st).played =
        st.played ++ tracks.filterMap
          (fun t => (eventDbId amap t).map
            (fun dbId =>
              (⟨uid, t.track_id, dbId, t.duration_ms, pts t.listened_at⟩ :
                RPlayedTrack))) := by
  intro tracks
  induction tracks with
  | nil => intro st; simp
  | cons t ts ih =>
    intro st
    rw [List.foldl_cons, ih, List.filterMap_cons]
    cases hd : eventDbId amap t with
    | none =>
      rw [playStep_skip uid pts amap st t hd]
      simp
    | some dbId =>
      rw [playStep_hit uid pts amap st t dbId hd]
      simp

/-! ## Extraction of the entity batch -/

lemma playedOf_append (l1 l2 : List Entity) :
    playedOf (l1 ++ l2) = playedOf l1 ++ playedOf l2 := by
  unfold playedOf
  rw [List.filterMap_append]

lemma artistsOf_append (l1 l2 : List Entity) :
    artistsOf (l1 ++ l2) = artistsOf l1 ++ artistsOf l2 := by
  unfold artistsOf
  rw [List.filterMap_append]

lemma assocsOf_append (l1 l2 : List Entity) :
    assocsOf (l1 ++ l2) = assocsOf l1 ++ assocsOf l2 := by
  unfold assocsOf
  rw [List.filterMap_append]

lemma playedOf_map_artist (l : List RArtist) :
    playedOf (l.map Entity.artist) = [] := by
  induction l with
  | nil => rfl
  | cons x xs ih => simpa [playedOf, List.filterMap_cons] using ih

lemma playedOf_map_played (l : List RPlayedTrack) :
    playedOf (l.map Entity.played) = l := by
  induction l with
  | nil => rfl
  | cons x xs ih => simpa [playedOf, List.filterMap_cons] using ih

lemma playedOf_map_assoc (l : List RTopArtistAssoc) :
    playedOf (l.map Entity.assoc) = [] := by
  induction l with
  | nil => rfl
  | cons x xs ih => simpa [playedOf, List.filterMap_cons] using ih

lemma artistsOf_map_artist (l : List RArtist) :
    artistsOf (l.map Entity.artist) = l := by
  induction l with
  | nil => rfl
  | cons x xs ih => simpa [artistsOf, List.filterMap_cons] using ih

lemma artistsOf_map_played (l : List RPlayedTrack) :
    artistsOf (l.map Entity.played) = [] := by
  induction l with
  | nil => rfl
  | cons x xs ih => simpa [artistsOf, List.filterMap_cons] using ih

lemma artistsOf_map_assoc (l : List RTopArtistAssoc) :
    artistsOf (l.map Entity.assoc) = [] := by
  induction l with
  | nil => rfl
  | cons x xs ih => simpa [artistsOf, List.filterMap_cons] using ih

lemma assocsOf_map_artist (l : List RArtist) :
    assocsOf (l.map Entity.artist) = [] := by
  induction l with
  | nil => rfl
  | cons x xs ih => simpa [assocsOf, List.filterMap_cons] using ih

lemma assocsOf_map_played (l : List RPlayedTrack) :
    assocsOf (l.map Entity.played) = [] := by
  induction l with
  | nil => rfl
  | cons x xs ih => simpa [assocsOf, List.filterMap_cons] using ih

lemma assocsOf_map_assoc (l : List RTopArtistAssoc) :
    assocsOf (l.map Entity.assoc) = l := by
  induction l with
  | nil => rfl
  | cons x xs ih => simpa [assocsOf, List.filterMap_cons] using ih

/-- The `Artist` rows of one transform pass are those of the enrichment
loop. -/
lemma artistsOf_transformCore (allIds : List String)
    (responses : List (Option ArtistRec)) (pts : String → Int)
    (d : UnwrappedData) :
    artistsOf (transformCore allIds responses pts d) =
      (enrichAll (allIds.zip responses)).artists := by
  unfold transformCore
  rw [show ([Entity.user (mkUser d), Entity.stats (mkStats pts d)] :
      List Entity) ++ _ ++ _ ++ _ =
    [Entity.user (mkUser d), Entity.stats (mkStats pts d)] ++
      ((enrichAll (allIds.zip responses)).artists.map Entity.artist ++
        ((playAll d.user.id_hash pts (enrichAll (allIds.zip responses)).amap
          d.tracks).played.map Entity.played ++
          (mkAssocs d.user.id_hash
            (playAll d.user.id_hash pts (enrichAll (allIds.zip responses)).amap
              d.tracks) (enrichAll (allIds.zip responses)).cacheIds).map
            Entity.assoc)) from by
    simp [List.append_assoc]]
  rw [artistsOf_append, artistsOf_append, artistsOf_append,
    artistsOf_map_artist, artistsOf_map_played, artistsOf_map_assoc]
  simp [artistsOf, List.filterMap_cons]

/-- The `PlayedTrack` rows of one transform pass are those of the
played-track loop. -/
lemma playedOf_transformCore (allIds : List String)
    (responses : List (Option ArtistRec)) (pts : String → Int)
    (d : UnwrappedData) :
    playedOf (transformCore allIds responses pts d) =
      (playAll d.user.id_hash pts (enrichAll (allIds.zip responses)).amap
        d.tracks).played := by
  unfold transformCore
  rw [show ([Entity.user (mkUser d), Entity.stats (mkStats pts d)] :
      List Entity) ++ _ ++ _ ++ _ =
    [Entity.user (mkUser d), Entity.stats (mkStats pts d)] ++
      ((enrichAll (allIds.zip responses)).artists.map Entity.artist ++
        ((playAll d.user.id_hash pts (enrichAll (allIds.zip responses)).amap
          d.tracks).played.map Entity.played ++
          (mkAssocs d.user.id_hash
            (playAll d.user.id_hash pts (enrichAll (allIds.zip responses)).amap
              d.tracks) (enrichAll (allIds.zip responses)).cacheIds).map
            Entity.assoc)) from by
    simp [List.append_assoc]]
  rw [playedOf_append, playedOf_append, playedOf_append,
    playedOf_map_artist, playedOf_map_played, playedOf_map_assoc]
  simp [playedOf, List.filterMap_cons]

/-- The `UserTopArtistAssoc` rows of one transform pass are those the
derivation step emits. -/
lemma assocsOf_transformCore (allIds : List String)
    (responses : List (Option ArtistRec)) (pts : String → Int)
    (d : UnwrappedData) :
    assocsOf (transformCore allIds responses pts d) =
      mkAssocs d.user.id_hash
        (playAll d.user.id_hash pts (enrichAll (allIds.zip responses)).amap
          d.tracks) (enrichAll (allIds.zip responses)).cacheIds := by
  unfold transformCore
  rw [show ([Entity.user (mkUser d), Entity.stats (mkStats pts d)] :
      List Entity) ++ _ ++ _ ++ _ =
    [Entity.user (mkUser d), Entity.stats (mkStats pts d)] ++
      ((enrichAll (allIds.zip responses)).artists.map Entity.artist ++
        ((playAll d.user.id_hash pts (enrichAll (allIds.zip responses)).amap
          d.tracks).played.map Entity.played ++
          (mkAssocs d.user.id_hash
            (playAll d.user.id_hash pts (enrichAll (allIds.zip responses)).amap
              d.tracks) (enrichAll (allIds.zip responses)).cacheIds).map
            Entity.assoc)) from by
    simp [List.append_assoc]]
  rw [assocsOf_append, assocsOf_append, assocsOf_append,
    assocsOf_map_artist, assocsOf_map_played, assocsOf_map_assoc]
  simp [assocsOf, List.filterMap_cons]

/-- A kept event's canonical artist comes from
`map_input_artist_id_to_db_id`. -/
lemma eventDbId_some (amap : String → Option String) (t : UnwrappedPlayedTrack)
    (dbId : String) (h : eventDbId amap t = some dbId) :
    amap t.artist_id = some dbId := by
  unfold eventDbId at h
  by_cases h1 : (t.track_id == t.artist_id) = true
  · rw [if_pos h1] at h
    cases h
  · rw [if_neg h1] at h
    by_cases h2 : t.artist_id.isEmpty = true
    · rw [if_pos h2] at h
      cases h
    · rw [if_neg h2] at h
      cases h3 : amap t.artist_id with
      | none =>
        rw [h3] at h
        cases h
      | some dbId2 =>
        simp only [h3] at h
        by_cases h4 : dbId2.isEmpty = true
        · rw [if_pos h4] at h
          cases h
        · rw [if_neg h4] at h
          exact h

/-- With an empty raw→canonical map every event is skipped. -/
lemma eventDbId_empty (t : UnwrappedPlayedTrack) :
    eventDbId (fun _ => none) t = none := by
  unfold eventDbId
  by_cases h1 : (t.track_id == t.artist_id) = true
  · rw [if_pos h1]
  · rw [if_neg h1]
    by_cases h2 : t.artist_id.isEmpty = true
    · rw [if_pos h2]
    · rw [if_neg h2]

/-- Membership in the emitted association rows forces the guard of
line 149: the artist is cached, and the row carries its accumulated
statistics. -/
lemma mem_mkAssocs (uid : String) (pst : PlayState) (cache : List String)
    (t : RTopArtistAssoc) (h : t ∈ mkAssocs uid pst cache) :
    t.artist_id ∈ cache := by
  unfold mkAssocs at h
  by_cases hp : pst.played.length = 0
  · rw [if_pos hp] at h
    cases h
  · rw [if_neg hp] at h
    rcases List.mem_filterMap.mp h with ⟨c, _, hc⟩
    by_cases hmem : c ∈ cache
    · rw [if_pos hmem] at hc
      cases hc
      exact hmem
    · rw [if_neg hmem] at hc
      cases hc

/-! ## Claim C9 — the supplied top-artist list is ignored -/

/-- C9: two validated inputs that differ only in the externally supplied
`top_artists_medium_term` list produce identical entity batches under
the same catalog responses: the derived associations depend only on
the play-event history. -/
theorem transform_ignores_supplied_top_artists
    (setList : List String → List String)
    (gfn : List String → List (Option ArtistRec)) (pts : String → Int)
    (u : UnwrappedUser) (s : UnwrappedStats)
    (tracks : List UnwrappedPlayedTrack)
    (ta1 ta2 : List UnwrappedTopArtist) :
    transform setList gfn pts ⟨u, s, tracks, ta1⟩ =
      transform setList gfn pts ⟨u, s, tracks, ta2⟩ := rfl

/-! ## Claim C4 — referential closure -/

/-- C4: in every entity batch one transform pass returns, the artist
reference of every `PlayedTrack` row and of every
`UserTopArtistAssoc` row is the ID of some `Artist` row of the same
batch — for every catalog behaviour `gfn` and every input. -/
theorem transform_referential_closure (setList : List String → List String)
    (gfn : List String → List (Option ArtistRec)) (pts : String → Int)
    (d : UnwrappedData) :
    (∀ p ∈ playedOf (transform setList gfn pts d),
      p.artist_id ∈ (artistsOf (transform setList gfn pts d)).map
        (fun a => a.id)) ∧
    (∀ t ∈ assocsOf (transform setList gfn pts d),
      t.artist_id ∈ (artistsOf (transform setList gfn pts d)).map
        (fun a => a.id)) := by
  have hart : artistsOf (transform setList gfn pts d) =
      (enrichAll ((allArtistIds setList d.tracks).zip
        (responsesOf setList gfn d))).artists :=
    artistsOf_transformCore _ _ _ _
  have hcache : (enrichAll ((allArtistIds setList d.tracks).zip
      (responsesOf setList gfn d))).cacheIds =
      (enrichAll ((allArtistIds setList d.tracks).zip
        (responsesOf setList gfn d))).artists.map (fun a => a.id) :=
    enrich_cache_eq_artistIds _ enrichInit rfl
  have hplayed : playedOf (transform setList gfn pts d) =
      (playAll d.user.id_hash pts (enrichAll ((allArtistIds setList d.tracks).zip
        (responsesOf setList gfn d))).amap d.tracks).played :=
    playedOf_transformCore _ _ _ _
  have hassoc : assocsOf (transform setList gfn pts d) =
      mkAssocs d.user.id_hash
        (playAll d.user.id_hash pts (enrichAll ((allArtistIds setList d.tracks).zip
          (responsesOf setList gfn d))).amap d.tracks)
        (enrichAll ((allArtistIds setList d.tracks).zip
          (responsesOf setList gfn d))).cacheIds :=
    assocsOf_transformCore _ _ _ _
  constructor
  · intro p hp
    rw [hplayed] at hp
    rw [playAll, play_played_eq] at hp
    simp only [playInit, List.nil_append] at hp
    rcases List.mem_filterMap.mp hp with ⟨t, _, ht⟩
    cases hd : eventDbId (enrichAll ((allArtistIds setList d.tracks).zip
        (responsesOf setList gfn d))).amap t with
    | none =>
      rw [hd] at ht
      cases ht
    | some dbId =>
      rw [hd] at ht
      simp only [Option.map_some'] at ht
      cases ht
      have h1 := eventDbId_some _ t dbId hd
      have h2 := enrich_amap_sub_cache _ enrichInit
        (by intro a c hc; cases hc) t.artist_id dbId h1
      rw [hart, ← hcache]
      exact h2
  · intro t ht
    rw [hassoc] at ht
    have h2 := mem_mkAssocs _ _ _ t ht
    rw [hart, ← hcache]
    exact h2

/-! ## Claim C5 — artist dedup invariant -/

lemma enrichAll_cache_mem (pairs : List (String × Option ArtistRec)) (x : String) :
    x ∈ (enrichAll pairs).cacheIds ↔
      x ∈ pairs.filterMap (fun p => resolvedCanon p.2) := by
  rw [enrichAll, enrich_cache_mem pairs enrichInit x]
  simp [enrichInit]

/-- C5: the `Artist` rows of one transform pass have pairwise distinct
canonical IDs, their ID set is exactly the set of canonical IDs of the
accepted catalog replies for the referenced raw IDs, and their number
is the number of distinct such canonical IDs — one row per canonical
ID no matter how many raw IDs alias it. -/
theorem transform_artist_dedup (setList : List String → List String)
    (gfn : List String → List (Option ArtistRec)) (pts : String → Int)
    (d : UnwrappedData) :
    ((artistsOf (transform setList gfn pts d)).map (fun a => a.id)).Nodup ∧
    ((artistsOf (transform setList gfn pts d)).map (fun a => a.id)).toFinset =
      (canonicalIds (allArtistIds setList d.tracks)
        (responsesOf setList gfn d)).toFinset ∧
    ((artistsOf (transform setList gfn pts d)).map (fun a => a.id)).length =
      (canonicalIds (allArtistIds setList d.tracks)
        (responsesOf setList gfn d)).toFinset.card := by
  have hart : artistsOf (transform setList gfn pts d) =
      (enrichAll ((allArtistIds setList d.tracks).zip
        (responsesOf setList gfn d))).artists :=
    artistsOf_transformCore _ _ _ _
  have hcache : (enrichAll ((allArtistIds setList d.tracks).zip
      (responsesOf setList gfn d))).cacheIds =
      (enrichAll ((allArtistIds setList d.tracks).zip
        (responsesOf setList gfn d))).artists.map (fun a => a.id) :=
    enrich_cache_eq_artistIds _ enrichInit rfl
  have hids : (artistsOf (transform setList gfn pts d)).map (fun a => a.id) =
      (enrichAll ((allArtistIds setList d.tracks).zip
        (responsesOf setList gfn d))).cacheIds := by
    rw [hart, ← hcache]
  have hnd : ((artistsOf (transform setList gfn pts d)).map
      (fun a => a.id)).Nodup := by
    rw [hids]
    exact enrich_cache_nodup _ enrichInit List.nodup_nil
  have hmem : ∀ x, (x ∈ (artistsOf (transform setList gfn pts d)).map
      (fun a => a.id) ↔
        x ∈ canonicalIds (allArtistIds setList d.tracks)
          (responsesOf setList gfn d)) := by
    intro x
    rw [hids]
    rw [enrichAll_cache_mem]
    unfold canonicalIds
    exact Iff.rfl
  have hset : ((artistsOf (transform setList gfn pts d)).map
      (fun a => a.id)).toFinset =
      (canonicalIds (allArtistIds setList d.tracks)
        (responsesOf setList gfn d)).toFinset := by
    apply Finset.ext
    intro x
    rw [List.mem_toFinset, List.mem_toFinset]
    exact hmem x
  exact ⟨hnd, hset, by rw [← hset, List.toFinset_card_of_nodup hnd]⟩

/-! ## Claim C3 — per-artist aggregate correctness -/

lemma assocs_filter_none (uid : String) (counts : String → Nat)
    (last : String → Option Int) (cache : List String) (c : String) :
    ∀ keys : List String, c ∉ keys →
      ((keys.filterMap
        (fun k => if k ∈ cache then
          some (⟨uid, k, counts k, last k⟩ : RTopArtistAssoc) else none)).filter
            (fun t2 => t2.artist_id == c)) = [] := by
  intro keys
  induction keys with
  | nil => intro _; rfl
  | cons k keys ih =>
    intro hc
    have hkc : ¬(k = c) := fun h => hc (h ▸ List.mem_cons_self _ _)
    have hrest : c ∉ keys := fun h => hc (List.mem_cons_of_mem _ h)
    rw [List.filterMap_cons]
    by_cases hmem : k ∈ cache
    · rw [if_pos hmem, List.filter_cons]
      have hbeq : (((⟨uid, k, counts k, last k⟩ : RTopArtistAssoc).artist_id == c) :
          Bool) = false := by
        simp only [beq_eq_false_iff_ne, ne_eq]
        exact hkc
      rw [hbeq]
      simp only [Bool.false_eq_true, if_false]
      exact ih hrest
    · rw [if_neg hmem]
      exact ih hrest

lemma assocs_filter_single (uid : String) (counts : String → Nat)
    (last : String → Option Int) (cache : List String) (c : String) :
    ∀ keys : List String, keys.Nodup → c ∈ keys → c ∈ cache →
      ((keys.filterMap
        (fun k => if k ∈ cache then
          some (⟨uid, k, counts k, last k⟩ : RTopArtistAssoc) else none)).filter
            (fun t2 => t2.artist_id == c)) =
        [⟨uid, c, counts c, last c⟩] := by
  intro keys
  induction keys with
  | nil => intro _ hc; cases hc
  | cons k keys ih =>
    intro hnd hc hcache
    have hnd2 := List.nodup_cons.mp hnd
    rw [List.filterMap_cons]
    by_cases hkc : k = c
    · subst hkc
      rw [if_pos hcache, List.filter_cons]
      have hbeq : (((⟨uid, k, counts k, last k⟩ : RTopArtistAssoc).artist_id == k) :
          Bool) = true := by simp
      rw [hbeq]
      simp only [if_true]
      rw [assocs_filter_none uid counts last cache k keys hnd2.1]
    · have hrest : c ∈ keys := by
        rcases List.mem_cons.mp hc with h | h
        · exact absurd h.symm hkc
        · exact h
      by_cases hmem : k ∈ cache
      · rw [if_pos hmem, List.filter_cons]
        have hbeq : (((⟨uid, k, counts k, last k⟩ : RTopArtistAssoc).artist_id == c) :
            Bool) = false := by
          simp only [beq_eq_false_iff_ne, ne_eq]
          exact hkc
        rw [hbeq]
        simp only [Bool.false_eq_true, if_false]
        exact ih hnd2.2 hrest hcache
      · rw [if_neg hmem]
        exact ih hnd2.2 hrest hcache

/-- C3: whenever at least one play event resolves to canonical artist
`c`, the pass emits exactly one `UserTopArtistAssoc` for `c`, whose
`play_count` is the number of events resolved to `c` and whose
`last_played_at` is the maximum of their parsed `listened_at`
timestamps (the running value is bumped only on strictly greater
timestamps, so ties keep the earlier stored value — which equals the
maximum). -/
theorem transform_top_artist_aggregate (setList : List String → List String)
    (gfn : List String → List (Option ArtistRec)) (pts : String → Int)
    (d : UnwrappedData) (c : String)
    (hne : keptFor (resolvedMap setList gfn d) d.tracks c ≠ []) :
    (assocsOf (transform setList gfn pts d)).filter (fun t2 => t2.artist_id == c) =
      [⟨d.user.id_hash, c,
        (keptFor (resolvedMap setList gfn d) d.tracks c).length,
        (keptTs (resolvedMap setList gfn d) pts d.tracks c).max?⟩] := by
  have hassoc : assocsOf (transform setList gfn pts d) =
      mkAssocs d.user.id_hash
        (playAll d.user.id_hash pts (enrichAll ((allArtistIds setList d.tracks).zip
          (responsesOf setList gfn d))).amap d.tracks)
        (enrichAll ((allArtistIds setList d.tracks).zip
          (responsesOf setList gfn d))).cacheIds :=
    assocsOf_transformCore _ _ _ _
  have hmap : resolvedMap setList gfn d =
      (enrichAll ((allArtistIds setList d.tracks).zip
        (responsesOf setList gfn d))).amap := rfl
  rcases List.exists_mem_of_ne_nil _ hne with ⟨t0, ht0⟩
  have ht0m := List.mem_filter.mp ht0
  have ht0db : eventDbId (resolvedMap setList gfn d) t0 = some c :=
    beq_iff_eq.mp ht0m.2
  have hplayed : (playAll d.user.id_hash pts (enrichAll
      ((allArtistIds setList d.tracks).zip
        (responsesOf setList gfn d))).amap d.tracks).played =
      d.tracks.filterMap
        (fun t => (eventDbId (resolvedMap setList gfn d) t).map
          (fun dbId =>
            (⟨d.user.id_hash, t.track_id, dbId, t.duration_ms,
              pts t.listened_at⟩ : RPlayedTrack))) := by
    rw [playAll, play_played_eq]
    simp only [playInit, List.nil_append]
    rw [hmap]
  have hlen : (playAll d.user.id_hash pts (enrichAll
      ((allArtistIds setList d.tracks).zip
        (responsesOf setList gfn d))).amap d.tracks).played.length ≠ 0 := by
    rw [hplayed]
    intro hzero
    have hnil := List.eq_nil_of_length_eq_zero hzero
    have := List.filterMap_eq_nil_iff.mp hnil t0 ht0m.1
    rw [ht0db] at this
    cases this
  have hkeys_nodup : (playAll d.user.id_hash pts (enrichAll
      ((allArtistIds setList d.tracks).zip
        (responsesOf setList gfn d))).amap d.tracks).statKeys.Nodup := by
    rw [playAll]
    exact play_statKeys_nodup _ _ _ _ playInit List.nodup_nil
  have hkeys_mem : c ∈ (playAll d.user.id_hash pts (enrichAll
      ((allArtistIds setList d.tracks).zip
        (responsesOf setList gfn d))).amap d.tracks).statKeys := by
    rw [playAll]
    rw [play_statKeys_mem _ _ _ _ playInit c]
    exact Or.inr ⟨t0, ht0m.1, ht0db⟩
  have hcachemem : c ∈ (enrichAll ((allArtistIds setList d.tracks).zip
      (responsesOf setList gfn d))).cacheIds := by
    have h1 := eventDbId_some _ t0 c ht0db
    rw [hmap] at h1
    exact enrich_amap_sub_cache _ enrichInit
      (by intro a c2 hc2; cases hc2) t0.artist_id c h1
  rw [hassoc]
  unfold mkAssocs
  rw [if_neg hlen]
  rw [assocs_filter_single _ _ _ _ c _ hkeys_nodup hkeys_mem hcachemem]
  have hcounts : (playAll d.user.id_hash pts (enrichAll
      ((allArtistIds setList d.tracks).zip
        (responsesOf setList gfn d))).amap d.tracks).counts c =
      (keptFor (resolvedMap setList gfn d) d.tracks c).length := by
    rw [playAll, play_counts_eq]
    simp only [playInit]
    rw [keptFor, hmap]
    simp
  have hlast : (playAll d.user.id_hash pts (enrichAll
      ((allArtistIds setList d.tracks).zip
        (responsesOf setList gfn d))).amap d.tracks).lastAt c =
      (keptTs (resolvedMap setList gfn d) pts d.tracks c).max? := by
    rw [playAll, play_lastAt_eq]
    simp only [playInit]
    rw [keptTs, keptFor, hmap, runMax_none_eq_max]
  rw [hcounts, hlast]

/-! ## Claim C10 — records without truthy id/name behave like null -/

lemma enrich_fold_bad (r : ArtistRec) (hbad : resolvedCanon (some r) = none) :
    ∀ (R1 : List (Option ArtistRec)) (allIds : List String)
      (R2 : List (Option ArtistRec)) (st : EnrichState),
      (allIds.zip (R1 ++ some r :: R2)).foldl enrichStep st =
        (allIds.zip (R1 ++ none :: R2)).foldl enrichStep st := by
  intro R1
  induction R1 with
  | nil =>
    intro allIds R2 st
    cases allIds with
    | nil => rfl
    | cons a rest =>
      simp only [List.nil_append, List.zip_cons_cons, List.foldl_cons]
      have hstep : enrichStep st (a, some r) = st := by
        rcases enrichStep_char st (a, some r) with ⟨_, he⟩ | ⟨r2, cid, nm, _, _, _, hres, _⟩
        · exact he
        · rw [hres] at hbad
          cases hbad
      rw [hstep, enrichStep_none_eq]
  | cons y R1 ih =>
    intro allIds R2 st
    cases allIds with
    | nil => rfl
    | cons a rest =>
      simp only [List.cons_append, List.zip_cons_cons, List.foldl_cons]
      exact ih rest R2 (enrichStep st (a, y))

lemma enrichAll_bad (r : ArtistRec) (hbad : resolvedCanon (some r) = none)
    (R1 : List (Option ArtistRec)) (allIds : List String)
    (R2 : List (Option ArtistRec)) :
    enrichAll (allIds.zip (R1 ++ some r :: R2)) =
      enrichAll (allIds.zip (R1 ++ none :: R2)) :=
  enrich_fold_bad r hbad R1 allIds R2 enrichInit

/-- C10: a positionally paired catalog record that lacks a truthy `id`
or a truthy `name` is treated by the transform exactly like a `null`
lookup — the whole entity batch is unchanged if the record is replaced
by `null`: no raw→canonical entry, no `Artist` row, and every play
event referencing that raw ID is dropped just as for `null`. -/
theorem transform_fieldless_record_like_null (allIds : List String)
    (R1 R2 : List (Option ArtistRec)) (r : ArtistRec) (pts : String → Int)
    (d : UnwrappedData) (hbad : resolvedCanon (some r) = none) :
    transformCore allIds (R1 ++ some r :: R2) pts d =
      transformCore allIds (R1 ++ none :: R2) pts d := by
  unfold transformCore
  rw [enrichAll_bad r hbad R1 allIds R2]

/-- Witness for C10: a record with an empty `name` behaves exactly like
a `null` reply. -/
theorem transform_fieldless_record_like_null_witness :
    resolvedCanon (some (⟨some "x", some "", none, [], none, []⟩ : ArtistRec)) =
      none ∧
    transformCore ["x"] ([] ++ some (⟨some "x", some "", none, [], none, []⟩ :
        ArtistRec) :: []) (fun s => (s.length : Int))
      ⟨⟨"u", none, none⟩, ⟨1, 1, 1, 1, none, none⟩,
        [⟨"t1", "x", 7, "ts"⟩], []⟩ =
      transformCore ["x"] ([] ++ none :: []) (fun s => (s.length : Int))
        ⟨⟨"u", none, none⟩, ⟨1, 1, 1, 1, none, none⟩,
          [⟨"t1", "x", 7, "ts"⟩], []⟩ :=
  ⟨rfl, transform_fieldless_record_like_null ["x"] [] []
    ⟨some "x", some "", none, [], none, []⟩ (fun s => (s.length : Int))
    ⟨⟨"u", none, none⟩, ⟨1, 1, 1, 1, none, none⟩, [⟨"t1", "x", 7, "ts"⟩], []⟩ rfl⟩

/-! ## Claim C2 — catalog unavailable degrades to User + stats only -/

lemma get_artists_noauth (setList : List String → List String)
    (net : Nat → Nat → Outcome) (retries B : Nat) (ids : List String) :
    ∀ x ∈ get_artists setList net false retries B ids, x = none := by
  intro x hx
  unfold get_artists at hx
  by_cases h1 : ids.isEmpty = true
  · rw [if_pos h1] at hx
    cases hx
  · rw [if_neg h1] at hx
    by_cases h2 : (setList (ids.filter (fun s => !s.isEmpty))).isEmpty = true
    · rw [if_pos h2] at hx
      cases hx
    · rw [if_neg h2] at hx
      rcases List.mem_map.mp hx with ⟨a, _, ha⟩
      rw [← ha]
      rw [mergedMap_none]
      intro b hb r2 hr2 hid
      rcases List.mem_map.mp hb with ⟨j, _, hj⟩
      have : (make_request false retries (net j)).1 = none := rfl
      rw [this] at hj
      rw [← hj] at hr2
      cases hr2

lemma enrich_all_respNone :
    ∀ (pairs : List (String × Option ArtistRec)) (st : EnrichState),
      (∀ p ∈ pairs, p.2 = none) → pairs.foldl enrichStep st = st := by
  intro pairs
  induction pairs with
  | nil => intro st _; rfl
  | cons p pairs ih =>
    intro st h
    rw [List.foldl_cons]
    have hp := h p (List.mem_cons_self _ _)
    rcases p with ⟨a, b⟩
    simp only at hp
    subst hp
    rw [enrichStep_none_eq]
    exact ih st (fun q hq => h q (List.mem_cons_of_mem _ hq))

lemma play_all_skipped (uid : String) (pts : String → Int)
    (amap : String → Option String) (hskip : ∀ t, eventDbId amap t = none) :
    ∀ (tracks : List UnwrappedPlayedTrack) (st : PlayState),
      tracks.foldl (playStep uid pts amap) st = st := by
  intro tracks
  induction tracks with
  | nil => intro st; rfl
  | cons t ts ih =>
    intro st
    rw [List.foldl_cons, playStep_skip uid pts amap st t (hskip t)]
    exact ih st

/-- C2: when the catalog is unavailable (`_get_access_token` fails:
missing credentials or a failed exchange), every lookup resolves to
`null`, all play events are dropped, and the transform still returns
exactly the `User` and `UserListeningStats` entities — zero
`PlayedTrack`, `Artist` and `UserTopArtistAssoc` rows — for every
validated input. -/
theorem transform_catalog_unavailable (setList : List String → List String)
    (net : Nat → Nat → Outcome) (retries B : Nat) (pts : String → Int)
    (d : UnwrappedData) :
    transform setList (get_artists setList net false retries B) pts d =
      [Entity.user (mkUser d), Entity.stats (mkStats pts d)] := by
  have hresp : ∀ x ∈ responsesOf setList
      (get_artists setList net false retries B) d, x = none := by
    intro x hx
    unfold responsesOf at hx
    by_cases he : (allArtistIds setList d.tracks).isEmpty = true
    · rw [if_pos he] at hx
      cases hx
    · rw [if_neg he] at hx
      exact get_artists_noauth setList net retries B _ x hx
  have hest : enrichAll ((allArtistIds setList d.tracks).zip
      (responsesOf setList (get_artists setList net false retries B) d)) =
      enrichInit := by
    rw [enrichAll]
    apply enrich_all_respNone
    rintro ⟨a, b⟩ hp
    exact hresp b (List.of_mem_zip hp).2
  have hskip : ∀ t, eventDbId enrichInit.amap t = none := fun t =>
    eventDbId_empty t
  unfold transform transformCore
  rw [hest]
  have hplay : playAll d.user.id_hash pts enrichInit.amap d.tracks = playInit := by
    rw [playAll]
    exact play_all_skipped _ _ _ hskip d.tracks playInit
  simp only [hplay]
  simp [mkAssocs, enrichInit, playInit]

/-! ## Claim C8 — atomic batch persistence -/

/-- C8: a non-empty entity batch is committed atomically —
`save_models` returns the count of committed entities and the store
holds exactly the old rows plus the whole batch; on a commit failure
the batch is rolled back, the store is unchanged, and the error is
re-raised to the caller. -/
theorem save_models_commit_or_rollback (db models : List Entity)
    (hne : models ≠ []) :
    save_models true db models = (db ++ models, SaveResult.ok models.length) ∧
    save_models false db models = (db, SaveResult.err) := by
  have he : models.isEmpty = false := by
    cases models with
    | nil => exact absurd rfl hne
    | cons x xs => rfl
  unfold save_models
  rw [he]
  simp

/-- Witness for C8 at a one-entity batch. -/
theorem save_models_commit_or_rollback_witness :
    ([Entity.user ⟨"u", none, none⟩] : List Entity) ≠ [] ∧
    (save_models true [] [Entity.user ⟨"u", none, none⟩] =
      ([] ++ [Entity.user ⟨"u", none, none⟩],
        SaveResult.ok ([Entity.user ⟨"u", none, none⟩] : List Entity).length) ∧
    save_models false [] [Entity.user ⟨"u", none, none⟩] =
      ([], SaveResult.err)) :=
  ⟨by decide, save_models_commit_or_rollback [] [Entity.user ⟨"u", none, none⟩]
    (by decide)⟩

/-! ## Concrete scenario used by the transformer witnesses -/

/-- The catalog record of the spec's walk-through: raw ID `"A1"` maps to
canonical `"CANON1"`, name `"Alice"`. -/
def recCanon : ArtistRec := ⟨some "CANON1", some "Alice", none, [], none, []⟩

def gfnEx : List String → List (Option ArtistRec) :=
  fun ids => ids.map (fun a => if a = "A1" then some recCanon else none)

def ptsEx : String → Int := fun s => (s.length : Int)

/-- Two events for raw artist `"A1"` (timestamps 1 and 2) and one for
the unmatched `"A2"`. -/
def dEx : UnwrappedData :=
  ⟨⟨"u", none, none⟩, ⟨10, 3, 2, 5, none, none⟩,
    [⟨"t1", "A1", 100, "a"⟩, ⟨"t2", "A1", 100, "bb"⟩, ⟨"t3", "A2", 100, "c"⟩],
    []⟩

def setListEx : List String → List String := fun l => l.dedup

/-- Witness for C3 at the spec's walk-through scenario: the association
for `"CANON1"` carries `play_count = 2` and the later timestamp. -/
theorem transform_top_artist_aggregate_witness :
    keptFor (resolvedMap setListEx gfnEx dEx) dEx.tracks "CANON1" ≠ [] ∧
    (assocsOf (transform setListEx gfnEx ptsEx dEx)).filter
        (fun t2 => t2.artist_id == "CANON1") =
      [⟨dEx.user.id_hash, "CANON1",
        (keptFor (resolvedMap setListEx gfnEx dEx) dEx.tracks "CANON1").length,
        (keptTs (resolvedMap setListEx gfnEx dEx) ptsEx dEx.tracks
          "CANON1").max?⟩] :=
  ⟨by decide, transform_top_artist_aggregate setListEx gfnEx ptsEx dEx "CANON1"
    (by decide)⟩

/-- Witness for C4 at the same scenario: a produced `PlayedTrack` row
and a produced association both reference an emitted `Artist` row. -/
theorem transform_referential_closure_witness :
    (⟨"u", "t1", "CANON1", 100, 1⟩ : RPlayedTrack) ∈
      playedOf (transform setListEx gfnEx ptsEx dEx) ∧
    ("CANON1" : String) ∈
      (artistsOf (transform setListEx gfnEx ptsEx dEx)).map (fun a => a.id) ∧
    (⟨"u", "CANON1", 2, some 2⟩ : RTopArtistAssoc) ∈
      assocsOf (transform setListEx gfnEx ptsEx dEx) :=
  ⟨by decide,
    (transform_referential_closure setListEx gfnEx ptsEx dEx).1
      ⟨"u", "t1", "CANON1", 100, 1⟩ (by decide),
    by decide⟩
